import Mathlib

/-!
# Identicon generator (`identicon.go`): shallow embedding and verified properties

The Go package derives a square, two-colour, paletted image from an identity
string: the identity and a salt are fed to a hash, the first digest byte picks a
foreground colour, and digest bits decide which cell rectangles are painted.

Modelling conventions.

* Go `int` values are `Int`; `/` and `%` are the truncating `Int.tdiv` and
  `Int.tmod`, and both panic on a zero divisor.
* A Go `int` has 64 bits. The product `blockSize * cols` that bounds the loop of
  `makeMatrix` is reduced to that range with `int64`, as Go does: for a large
  `BlockSize` it wraps, and at `BlockSize = 2^32` it is negative, so that the
  loop does not run. The other operations are exact. For `BlockSize ≥ 1` the
  loop only visits cells below the exact product (`int64_cells_le`), for which
  the coordinates lie between 0 and `IconSize` when `IconSize ≥ 0`
  (`matrixRects_bounds`), and the sum `blockSize + 1` leaves the range only at
  the largest `int`, where the loop bound is negative (`makeMatrix_maxInt`).
* Allocation (`make`, `image.NewPaletted`) is taken to succeed: running out of
  memory, or asking for a buffer or a capacity that cannot be allocated, is
  outside the model. The product `blockSize * blockSize` is only the capacity
  handed to `make`.
* A `byte` is `Fin 256`; a Go `string` that is only ever converted with
  `[]byte(s)` (identity, salt) is the list of its bytes.
* A run-time panic is an `Except.error`; a function that can panic returns
  `Except Panic _`.
* `hash.Hash` is a stateful accumulator: `Write` appends to what was written
  before, `Sum` finalises a copy and leaves the state as it is. The generator
  owns one such accumulator, so `Generate` returns the generator's next state
  along with the image.
* The standard library pieces used by the source (`image.Rect`,
  `image.NewPaletted`, `crypto/sha1`) are transcribed from the Go standard
  library.
-/

namespace Identicon

/-! ## Basic data -/

abbrev Byte := Fin 256

/-- Run-time panics the code can raise. -/
inductive Panic where
  | divideByZero
  | indexOutOfRange
  | nilDereference
  | negativeShift
  deriving DecidableEq, Repr

/-- Go `color.NRGBA`. -/
structure NRGBA where
  R : Byte
  G : Byte
  B : Byte
  A : Byte
  deriving DecidableEq, Repr

/-- Go `image.Point`. -/
structure Point where
  X : Int
  Y : Int
  deriving DecidableEq, Repr

/-- Go `image.Rectangle`: the pixels `Min.X ≤ x < Max.X`, `Min.Y ≤ y < Max.Y`. -/
structure Rectangle where
  Min : Point
  Max : Point
  deriving DecidableEq, Repr

/-- Go `image.Pt`. -/
def Pt (x y : Int) : Point := ⟨x, y⟩

/-- Go `image.Rect`: the rectangle with the given corners, put in canonical order. -/
def Rect (x0 y0 x1 y1 : Int) : Rectangle :=
  let (x0, x1) := if x0 > x1 then (x1, x0) else (x0, x1)
  let (y0, y1) := if y0 > y1 then (y1, y0) else (y0, y1)
  ⟨⟨x0, y0⟩, ⟨x1, y1⟩⟩

def Rectangle.Dx (r : Rectangle) : Int := r.Max.X - r.Min.X

def Rectangle.Dy (r : Rectangle) : Int := r.Max.Y - r.Min.Y

/-- Go `image.Paletted`: `Pix` holds one palette index per pixel, row by row. -/
structure Paletted where
  Pix : List Byte
  Stride : Int
  Rect : Rectangle
  Palette : List NRGBA
  deriving DecidableEq, Repr

/-- Go `image.NewPaletted`: a zeroed buffer of `Dx * Dy` indices. -/
def NewPaletted (r : Rectangle) (p : List NRGBA) : Paletted :=
  ⟨List.replicate (1 * r.Dx * r.Dy).toNat 0, 1 * r.Dx, r, p⟩

/-- Go `Point.In`: whether the point lies in the rectangle. -/
def Point.In (p : Point) (r : Rectangle) : Prop :=
  r.Min.X ≤ p.X ∧ p.X < r.Max.X ∧ r.Min.Y ≤ p.Y ∧ p.Y < r.Max.Y

instance (p : Point) (r : Rectangle) : Decidable (p.In r) := by
  unfold Point.In; infer_instance

/-- The assignment `img.Pix[i] = v`; panics when `i` is out of range. -/
def Paletted.setPix (img : Paletted) (i : Int) (v : Byte) : Except Panic Paletted :=
  if 0 ≤ i ∧ i < img.Pix.length then
    .ok ⟨img.Pix.set i.toNat v, img.Stride, img.Rect, img.Palette⟩
  else .error .indexOutOfRange

/-- The slice read `s[i]`; panics when `i` is out of range. -/
def index {α : Type} (s : List α) (i : Int) : Except Panic α :=
  if i < 0 then .error .indexOutOfRange
  else match s.get? i.toNat with
    | some a => .ok a
    | none => .error .indexOutOfRange

/-- Go `(*Paletted).PixOffset`. -/
def Paletted.PixOffset (p : Paletted) (x y : Int) : Int :=
  (y - p.Rect.Min.Y) * p.Stride + (x - p.Rect.Min.X) * 1

/-- Go `(*Paletted).ColorIndexAt`: the palette index of pixel `(x, y)`. -/
def Paletted.ColorIndexAt (p : Paletted) (x y : Int) : Except Panic Byte :=
  if ¬ (Point.mk x y).In p.Rect then .ok 0
  else index p.Pix (p.PixOffset x y)

/-- Go integer division `a / b`; panics when `b = 0`. -/
def goDiv (a b : Int) : Except Panic Int :=
  if b = 0 then .error .divideByZero else .ok (Int.tdiv a b)

/-- Go integer remainder `a % b`; panics when `b = 0`. -/
def goMod (a b : Int) : Except Panic Int :=
  if b = 0 then .error .divideByZero else .ok (Int.tmod a b)

/-- The value a Go `int` holds after an operation whose exact result is `x`: `x` reduced to
the 64-bit two's complement range `[-2^63, 2^63)`. -/
def int64 (x : Int) : Int :=
  (x + 9223372036854775808) % 18446744073709551616 - 9223372036854775808

/-- The values taken by `v` in `for v := lo; v < hi; v++`. -/
def loopRange (lo hi : Int) : List Int :=
  List.map (fun (k : Nat) => lo + (k : Int)) (List.range (hi - lo).toNat)

/-! ## `crypto/sha1` -/

namespace sha1

def mask32 (x : Nat) : Nat := x % 4294967296

def rotl (n x : Nat) : Nat := mask32 (x <<< n) ||| (x >>> (32 - n))

structure State where
  h0 : Nat
  h1 : Nat
  h2 : Nat
  h3 : Nat
  h4 : Nat

def init : State := ⟨0x67452301, 0xEFCDAB89, 0x98BADCFE, 0x10325476, 0xC3D2E1F0⟩

def beWord : List Nat → Nat
  | b0 :: b1 :: b2 :: b3 :: _ => ((b0 * 256 + b1) * 256 + b2) * 256 + b3
  | _ => 0

def words : Nat → List Nat → List Nat
  | 0, _ => []
  | n + 1, p => beWord p :: words n (p.drop 4)

/-- Message schedule, newest word first. -/
def schedule : Nat → List Nat → List Nat
  | 0, w => w
  | n + 1, w =>
    schedule n (rotl 1 (w.getD 2 0 ^^^ w.getD 7 0 ^^^ w.getD 13 0 ^^^ w.getD 15 0) :: w)

def round (t : Nat) (s : State) (w : Nat) : State :=
  let a := s.h0; let b := s.h1; let c := s.h2; let d := s.h3; let e := s.h4
  let fk : Nat × Nat :=
    if t < 20 then ((b &&& c) ||| ((b ^^^ 0xFFFFFFFF) &&& d), 0x5A827999)
    else if t < 40 then (b ^^^ c ^^^ d, 0x6ED9EBA1)
    else if t < 60 then (((b ||| c) &&& d) ||| (b &&& c), 0x8F1BBCDC)
    else (b ^^^ c ^^^ d, 0xCA62C1D6)
  ⟨mask32 (rotl 5 a + fk.1 + e + w + fk.2), a, rotl 30 b, c, d⟩

def rounds : Nat → State → List Nat → State
  | _, s, [] => s
  | t, s, w :: ws => rounds (t + 1) (round t s w) ws

def block (s : State) (p : List Nat) : State :=
  let w := (schedule 64 (words 16 p).reverse).reverse
  let r := rounds 0 s w
  ⟨mask32 (s.h0 + r.h0), mask32 (s.h1 + r.h1), mask32 (s.h2 + r.h2), mask32 (s.h3 + r.h3),
   mask32 (s.h4 + r.h4)⟩

def blocks : Nat → State → List Nat → State
  | 0, s, _ => s
  | n + 1, s, p => blocks n (block s p) (p.drop 64)

def beBytes (n : Nat) (x : Nat) : List Nat :=
  (List.range n).reverse.map (fun k => (x >>> (8 * k)) % 256)

def pad (msg : List Nat) : List Nat :=
  let len := msg.length
  msg ++ [0x80] ++ List.replicate ((119 - len % 64) % 64) 0 ++ beBytes 8 (8 * len)

def toByte (x : Nat) : Byte := ⟨x % 256, Nat.mod_lt _ (by decide)⟩

/-- The SHA-1 digest (20 bytes) of a message. -/
def sum (msg : List Byte) : List Byte :=
  let p := pad (msg.map (fun b => b.val))
  let s := blocks (p.length / 64) init p
  [toByte (s.h0 >>> 24), toByte (s.h0 >>> 16), toByte (s.h0 >>> 8), toByte s.h0,
   toByte (s.h1 >>> 24), toByte (s.h1 >>> 16), toByte (s.h1 >>> 8), toByte s.h1,
   toByte (s.h2 >>> 24), toByte (s.h2 >>> 16), toByte (s.h2 >>> 8), toByte s.h2,
   toByte (s.h3 >>> 24), toByte (s.h3 >>> 16), toByte (s.h3 >>> 8), toByte s.h3,
   toByte (s.h4 >>> 24), toByte (s.h4 >>> 16), toByte (s.h4 >>> 8), toByte s.h4]

end sha1

/-! ## `hash.Hash` -/

/-- A `hash.Hash` value: the digest algorithm and the bytes written so far. -/
structure Hash where
  algorithm : List Byte → List Byte
  written : List Byte

/-- Go `h.Write(p)`: absorbs `p` after everything written before. -/
def Hash.Write (h : Hash) (p : List Byte) : Hash := ⟨h.algorithm, h.written ++ p⟩

/-- Go `h.Sum(b)`: appends the digest of what was written to `b`; the state is kept. -/
def Hash.Sum (h : Hash) (b : List Byte) : List Byte := b ++ h.algorithm h.written

/-- Go `sha1.New()`. -/
def sha1.New : Hash := ⟨sha1.sum, []⟩

/-! ## The generator -/

structure GeneratorOptions where
  Salt : List Byte
  Hash : Option Hash
  BlockSize : Int
  Padding : Int
  IconSize : Int
  OutputFormat : String
  Inverted : Bool

structure Generator where
  Foreground : List NRGBA
  Background : NRGBA
  Options : GeneratorOptions

def rgb (r g b : Byte) : NRGBA := ⟨r, g, b, 255⟩

def Generator.fill (_generator : Generator) (n : Int) (digest : List Byte) :
    Except Panic Bool := do
  let b ← index digest (Int.tdiv n 8)
  let shift := 8 - Int.tmod n 8 + 1
  if shift < 0 then throw .negativeShift
  pure ((b.val >>> shift.toNat) % 256 &&& 1 == 1)

/-- One iteration of the loop in `makeMatrix`, for cell index `i`. -/
def Generator.makeMatrixStep (generator : Generator) (digest : List Byte)
    (blockSize width cols padding : Int) (res : List Rectangle) (i : Int) :
    Except Panic (List Rectangle) := do
  if !(← generator.fill i digest) then
    pure res
  else
    let column ← goDiv i blockSize
    let row ← goDiv i blockSize
    let pt := Pt (padding + column * width) (padding + row * width)
    let rect : Rectangle := ⟨pt, Pt (pt.X + width) (pt.Y + width)⟩
    let rect : Rectangle :=
      if Int.tmod blockSize 2 = 0 ∧ column = cols - 1 then
        ⟨rect.Min, ⟨rect.Max.X + width, rect.Max.Y⟩⟩
      else rect
    let res := res ++ [rect]
    if column < cols - 1 then
      let rect : Rectangle :=
        ⟨⟨padding + (blockSize - column - 1) * width, rect.Min.Y⟩, rect.Max⟩
      let rect : Rectangle := ⟨rect.Min, ⟨rect.Min.X + width, rect.Max.Y⟩⟩
      pure (res ++ [rect])
    else
      pure res

def Generator.makeMatrix (generator : Generator) (digest : List Byte) :
    Except Panic (List Rectangle) := do
  let blockSize := generator.Options.BlockSize
  let width ← goDiv generator.Options.IconSize (blockSize + 1)
  let cols := Int.tdiv blockSize 2 + Int.tmod blockSize 2
  let cells := int64 (blockSize * cols)
  let res : List Rectangle := []
  let padding := Int.tdiv width 2
  (loopRange 0 cells).foldlM
    (generator.makeMatrixStep digest blockSize width cols padding) res

def Generator.hashData (generator : Generator) (identity : List Byte) :
    Except Panic (List Byte × Generator) :=
  match generator.Options.Hash with
  | none => .error .nilDereference
  | some h =>
    let h := h.Write identity
    let h := h.Write generator.Options.Salt
    let o := generator.Options
    .ok (h.Sum [], ⟨generator.Foreground, generator.Background,
      ⟨o.Salt, some h, o.BlockSize, o.Padding, o.IconSize, o.OutputFormat, o.Inverted⟩⟩)

def Generator.pickColors (generator : Generator) (digest : List Byte) :
    Except Panic (NRGBA × NRGBA) := do
  let d0 ← index digest 0
  let foregroundIndex ← goMod (d0.val : Int) (generator.Foreground.length : Int)
  if generator.Options.Inverted then
    pure (generator.Background, ← index generator.Foreground foregroundIndex)
  else
    pure (← index generator.Foreground foregroundIndex, generator.Background)

def Generator.makePalette (generator : Generator) (foreground background : NRGBA) :
    Paletted :=
  let palette := [background, foreground]
  let size := generator.Options.IconSize
  NewPaletted (Rect 0 0 size size) palette

/-- The inner loops of `Generate`: every pixel of `rect` gets index 1. -/
def paintRect (palette : Paletted) (rect : Rectangle) : Except Panic Paletted :=
  (loopRange rect.Min.X rect.Max.X).foldlM
    (fun palette x =>
      (loopRange rect.Min.Y rect.Max.Y).foldlM
        (fun palette y => palette.setPix (y * palette.Stride + x) 1) palette)
    palette

/-- The body of `Generate` once the digest is known. -/
def Generator.render (generator : Generator) (digest : List Byte) :
    Except Panic Paletted := do
  let (fg, bg) ← generator.pickColors digest
  let palette := generator.makePalette fg bg
  let rects ← generator.makeMatrix digest
  rects.foldlM paintRect palette

/-- The image for `identity`, and the generator with its hash state advanced. -/
def Generator.Generate (generator : Generator) (identity : List Byte) :
    Except Panic (Paletted × Generator) := do
  let (digest, generator) ← generator.hashData identity
  let img ← generator.render digest
  pure (img, generator)

def NewDefaultGenerator : Generator :=
  let defaultForeground := [
    rgb 45 79 255,
    rgb 254 180 44,
    rgb 226 121 234,
    rgb 30 179 253,
    rgb 232 77 65,
    rgb 49 203 115,
    rgb 141 69 170]
  let background := rgb 224 224 224
  ⟨defaultForeground, background, ⟨[], some sha1.New, 5, 0, 200, "webp", false⟩⟩

def NewGenerator (foreground : List NRGBA) (background : NRGBA)
    (options : GeneratorOptions) : Generator :=
  let blockSize := if options.BlockSize = 0 then 5 else options.BlockSize
  let iconSize := if options.IconSize = 0 then 200 else options.IconSize
  let hash := if options.Hash.isNone then some sha1.New else options.Hash
  let outputFormat := if options.OutputFormat = "" then "png" else options.OutputFormat
  ⟨foreground, background,
    ⟨options.Salt, hash, blockSize, options.Padding, iconSize, outputFormat,
      options.Inverted⟩⟩

/-! ## Derived notions used in the statements -/

/-- The bit `fill` tests for cell `n`, when the digest read is in range. -/
def fillBit (n : Int) (digest : List Byte) : Bool :=
  match digest.get? (Int.tdiv n 8).toNat with
  | some b => (b.val >>> (8 - Int.tmod n 8 + 1).toNat) % 256 &&& 1 == 1
  | none => false

/-- The rectangles one pass of the loop of `makeMatrix` appends for a filled cell `i`. -/
def cellRects (blockSize width cols padding i : Int) : List Rectangle :=
  let column := Int.tdiv i blockSize
  let first : Rectangle :=
    ⟨⟨padding + column * width, padding + column * width⟩,
     ⟨if Int.tmod blockSize 2 = 0 ∧ column = cols - 1
        then padding + column * width + width + width
        else padding + column * width + width,
      padding + column * width + width⟩⟩
  if column < cols - 1 then
    [first,
     ⟨⟨padding + (blockSize - column - 1) * width, padding + column * width⟩,
      ⟨padding + (blockSize - column - 1) * width + width, padding + column * width + width⟩⟩]
  else [first]

/-- The list `makeMatrix` builds when every digest read is in range. -/
def matrixRects (blockSize iconSize : Int) (digest : List Byte) : List Rectangle :=
  let width := Int.tdiv iconSize (blockSize + 1)
  let cols := Int.tdiv blockSize 2 + Int.tmod blockSize 2
  let padding := Int.tdiv width 2
  (loopRange 0 (int64 (blockSize * cols))).flatMap
    (fun i => if fillBit i digest then cellRects blockSize width cols padding i else [])

/-- A rectangle all of whose pixels are on the `W × H` canvas. -/
def Rectangle.Fits (r : Rectangle) (W H : Int) : Prop :=
  ∀ x y, (Point.mk x y).In r → (0 ≤ x ∧ x < W) ∧ 0 ≤ y ∧ y < H

/-- The digest `hashData` returns for `identity` when the hash is in state `h`. -/
def Generator.digestOf (g : Generator) (h : Hash) (identity : List Byte) : List Byte :=
  ((h.Write identity).Write g.Options.Salt).Sum []

/-- The generator after `hashData` has fed `identity` and the salt to its hash `h`. -/
def Generator.afterHash (g : Generator) (h : Hash) (identity : List Byte) : Generator :=
  ⟨g.Foreground, g.Background,
    ⟨g.Options.Salt, some ((h.Write identity).Write g.Options.Salt), g.Options.BlockSize,
      g.Options.Padding, g.Options.IconSize, g.Options.OutputFormat, g.Options.Inverted⟩⟩

/-- The pixel box of grid cell (`column`, `row`) for cell side `width` and offset `padding`. -/
def cellBox (padding width column row : Int) : Rectangle :=
  ⟨⟨padding + column * width, padding + row * width⟩,
   ⟨padding + (column + 1) * width, padding + (row + 1) * width⟩⟩

/-- The rectangle `outer` extends over all of `inner`. -/
def Rectangle.Covers (outer inner : Rectangle) : Prop :=
  (outer.Min.X ≤ inner.Min.X ∧ inner.Max.X ≤ outer.Max.X) ∧
  (outer.Min.Y ≤ inner.Min.Y ∧ inner.Max.Y ≤ outer.Max.Y)

/-- The rectangle reflected in the vertical axis `x = m / 2`: pixel `x` goes to `m - 1 - x`. -/
def Rectangle.mirror (m : Int) (r : Rectangle) : Rectangle :=
  ⟨⟨m - r.Max.X, r.Min.Y⟩, ⟨m - r.Min.X, r.Max.Y⟩⟩

/-- The generator with `Options.Inverted` set to `b`, everything else as in `g`. -/
def Generator.withInverted (g : Generator) (b : Bool) : Generator :=
  ⟨g.Foreground, g.Background,
    ⟨g.Options.Salt, g.Options.Hash, g.Options.BlockSize, g.Options.Padding,
      g.Options.IconSize, g.Options.OutputFormat, b⟩⟩

/-- The image with its palette replaced by `p`, pixels and bounds as they are. -/
def Paletted.withPalette (img : Paletted) (p : List NRGBA) : Paletted :=
  ⟨img.Pix, img.Stride, img.Rect, p⟩

/-- The image with the order of its palette entries reversed (two entries: swapped). -/
def Paletted.swapPalette (img : Paletted) : Paletted :=
  img.withPalette img.Palette.reverse

/-- Every palette index in the buffer is 0 or 1. -/
def Paletted.TwoValued (img : Paletted) : Prop := ∀ p ∈ img.Pix, p = 0 ∨ p = 1

/-- The generator after `Generate` has been called, in turn, with each identity of `ids`;
the images are dropped. -/
def Generator.calls (g : Generator) (ids : List (List Byte)) : Except Panic Generator :=
  ids.foldlM (fun g identity => (g.Generate identity).map Prod.snd) g

/-- The default generator whose hash has absorbed the bytes `written`. -/
def defaultGeneratorAfter (written : List Byte) : Generator :=
  ⟨NewDefaultGenerator.Foreground, NewDefaultGenerator.Background,
    ⟨[], some ⟨sha1.sum, written⟩, 5, 0, 200, "webp", false⟩⟩

/-- A small generator used to instantiate the statements below: two foreground colours, a
12-pixel canvas, the default 5-cell grid and SHA-1. -/
def sampleGenerator : Generator :=
  NewGenerator [rgb 1 2 3, rgb 4 5 6] (rgb 9 9 9) ⟨[], none, 5, 0, 12, "", false⟩

/-- A row of 12 palette indices: 1 at the positions listed in `ones`, 0 elsewhere. -/
def sampleRow (ones : List Nat) : List Byte :=
  List.map (fun (x : Nat) => if x ∈ ones then 1 else 0) (List.range 12)

/-- The image `Generate` returns for the sample generator and the identity `"a"`: the cells of
rows 0, 1 and 2 of the grid on the two diagonals, each 2 x 2 pixels. -/
def sampleImage : Paletted :=
  ⟨sampleRow [] ++
    sampleRow [1, 2, 9, 10] ++ sampleRow [1, 2, 9, 10] ++
    sampleRow [3, 4, 7, 8] ++ sampleRow [3, 4, 7, 8] ++
    sampleRow [5, 6] ++ sampleRow [5, 6] ++
    List.replicate 60 0,
   12, ⟨⟨0, 0⟩, ⟨12, 12⟩⟩, [rgb 9 9 9, rgb 1 2 3]⟩

/-- The generator with `Options.Padding` and `Options.OutputFormat` replaced, everything else
as in `g`. -/
def Generator.withPaddingFormat (g : Generator) (padding : Int) (outputFormat : String) :
    Generator :=
  ⟨g.Foreground, g.Background,
    ⟨g.Options.Salt, g.Options.Hash, g.Options.BlockSize, padding, g.Options.IconSize,
      outputFormat, g.Options.Inverted⟩⟩

/-- The sample generator with the salt `"b"`. -/
def saltedGenerator : Generator :=
  NewGenerator [rgb 1 2 3, rgb 4 5 6] (rgb 9 9 9) ⟨[98], none, 5, 0, 12, "", false⟩

/-- The rectangle with top-left corner `(x, y)`, `w` pixels wide and `h` pixels high. -/
def rectAt (x y w h : Int) : Rectangle := ⟨⟨x, y⟩, ⟨x + w, y + h⟩⟩

/-- Whether `fill` reports cell `i` as filled. -/
def Generator.filled (g : Generator) (digest : List Byte) (i : Int) : Bool :=
  match g.fill i digest with
  | .ok b => b
  | .error _ => false

/-- The rectangles of the filled cell `i` in the words of the specification: with
`c = i / blockSize`, the `width` x `width` rectangle with top-left corner
`(pad + c * width, pad + c * width)`, widened to `2 * width` when `blockSize` is even and
`c = cols - 1`; then, when `c < cols - 1`, the `width` x `width` rectangle at column
`blockSize - c - 1` of the same row. -/
def referenceCell (blockSize width pad cols i : Int) : List Rectangle :=
  let c := i / blockSize
  rectAt (pad + c * width) (pad + c * width)
      (if blockSize % 2 = 0 ∧ c = cols - 1 then 2 * width else width) width ::
    (if c < cols - 1 then
      [rectAt (pad + (blockSize - c - 1) * width) (pad + c * width) width width]
    else [])

/-- The list of rectangles in the words of the specification: with `cols` the half of
`blockSize` rounded up, `cellCount = blockSize * cols`, `width = iconSize / (blockSize + 1)`
and `pad = width / 2` (integer divisions as in Go), the rectangles of the cells
`i = 0 .. cellCount - 1` that `fill` reports as filled, in increasing order of `i`. -/
def referenceMatrix (g : Generator) (digest : List Byte) : List Rectangle :=
  let blockSize := g.Options.BlockSize
  let cols := (blockSize + 1) / 2
  let cellCount := blockSize * cols
  let width := Int.tdiv g.Options.IconSize (blockSize + 1)
  let pad := Int.tdiv width 2
  ((List.map (fun (k : Nat) => (k : Int)) (List.range cellCount.toNat)).filter
      (fun i => g.filled digest i)).flatMap
    (fun i => referenceCell blockSize width pad cols i)

/-- The side of a grid cell in pixels, `width` in `makeMatrix`. -/
def gridWidth (blockSize iconSize : Int) : Int := Int.tdiv iconSize (blockSize + 1)

/-- The offset of the grid from the top and left edges, `padding` in `makeMatrix`. -/
def gridPadding (blockSize iconSize : Int) : Int := Int.tdiv (gridWidth blockSize iconSize) 2

/-- The number of grid columns decided by the digest, `cols` in `makeMatrix`. -/
def gridCols (blockSize : Int) : Int := Int.tdiv blockSize 2 + Int.tmod blockSize 2

/-- A generator with an 11-cell grid, otherwise default sizes and SHA-1. -/
def elevenGenerator : Generator :=
  NewGenerator [rgb 1 2 3] (rgb 9 9 9) ⟨[], none, 11, 0, 200, "", false⟩

/-- A generator with `BlockSize = 2^32`, where the 64-bit product `blockSize * cols` wraps. -/
def wrapGenerator : Generator :=
  NewGenerator [rgb 1 2 3] (rgb 9 9 9) ⟨[], none, 4294967296, 0, 200, "", false⟩

/-- A generator with a 4-cell grid on a 100-pixel canvas. -/
def fourGenerator : Generator :=
  NewGenerator [rgb 1 2 3] (rgb 9 9 9) ⟨[], none, 4, 0, 100, "", false⟩

/-! ## Painting -/

/-- What a painting pass does to a `W × H` canvas: the pixels of `S` get index 1,
the others and the image header stay as they were. -/
structure Paints (W H : Int) (S : Int → Int → Prop) (a b : Paletted) : Prop where
  stride : b.Stride = a.Stride
  rect : b.Rect = a.Rect
  palette : b.Palette = a.Palette
  length : b.Pix.length = a.Pix.length
  painted : ∀ x y, 0 ≤ x → x < W → 0 ≤ y → y < H → S x y →
    b.Pix.get? (y * W + x).toNat = some 1
  kept : ∀ x y, 0 ≤ x → x < W → 0 ≤ y → y < H → ¬ S x y →
    b.Pix.get? (y * W + x).toNat = a.Pix.get? (y * W + x).toNat

theorem Paints.none (W H : Int) (a : Paletted) : Paints W H (fun _ _ => False) a a :=
  ⟨rfl, rfl, rfl, rfl, fun _ _ _ _ _ _ h => h.elim, fun _ _ _ _ _ _ _ => rfl⟩

theorem Paints.trans {W H : Int} {S T : Int → Int → Prop} {a b c : Paletted}
    (h1 : Paints W H S a b) (h2 : Paints W H T b c) :
    Paints W H (fun x y => S x y ∨ T x y) a c := by
  refine ⟨h2.stride.trans h1.stride, h2.rect.trans h1.rect, h2.palette.trans h1.palette,
    h2.length.trans h1.length, ?_, ?_⟩
  · intro x y hx0 hx hy0 hy hS
    by_cases hT : T x y
    · exact h2.painted x y hx0 hx hy0 hy hT
    · rw [h2.kept x y hx0 hx hy0 hy hT]
      exact h1.painted x y hx0 hx hy0 hy (hS.resolve_right hT)
  · intro x y hx0 hx hy0 hy hS
    rw [h2.kept x y hx0 hx hy0 hy (fun h => hS (Or.inr h)),
      h1.kept x y hx0 hx hy0 hy (fun h => hS (Or.inl h))]

theorem Paints.congr {W H : Int} {S T : Int → Int → Prop} {a b : Paletted}
    (h : Paints W H S a b)
    (hST : ∀ x y, 0 ≤ x → x < W → 0 ≤ y → y < H → (S x y ↔ T x y)) :
    Paints W H T a b :=
  ⟨h.stride, h.rect, h.palette, h.length,
    fun x y hx0 hx hy0 hy hT => h.painted x y hx0 hx hy0 hy ((hST x y hx0 hx hy0 hy).2 hT),
    fun x y hx0 hx hy0 hy hT =>
      h.kept x y hx0 hx hy0 hy (fun hS => hT ((hST x y hx0 hx hy0 hy).1 hS))⟩

theorem offset_lt {W H x y : Int} (hx0 : 0 ≤ x) (hx : x < W) (hy0 : 0 ≤ y) (hy : y < H) :
    0 ≤ y * W + x ∧ y * W + x < W * H := by
  constructor
  · have : 0 ≤ y * W := mul_nonneg hy0 (by omega)
    omega
  · have h1 : (y + 1) * W ≤ H * W := mul_le_mul_of_nonneg_right (by omega) (by omega)
    have h2 : (y + 1) * W = y * W + W := by ring
    have h3 : H * W = W * H := mul_comm _ _
    omega

theorem offset_inj {W x y x' y' : Int} (hx0 : 0 ≤ x) (hx : x < W) (hx0' : 0 ≤ x')
    (hx' : x' < W) (h : y * W + x = y' * W + x') : x = x' ∧ y = y' := by
  have hy : y = y' := by
    rcases lt_trichotomy y y' with hlt | heq | hgt
    · have h1 : (y + 1) * W ≤ y' * W := mul_le_mul_of_nonneg_right (by omega) (by omega)
      have h2 : (y + 1) * W = y * W + W := by ring
      omega
    · exact heq
    · have h1 : (y' + 1) * W ≤ y * W := mul_le_mul_of_nonneg_right (by omega) (by omega)
      have h2 : (y' + 1) * W = y' * W + W := by ring
      omega
  subst hy
  exact ⟨by omega, rfl⟩

theorem setPix_paints {W H : Int} {a : Paletted} (hS : a.Stride = W)
    (hL : (a.Pix.length : Int) = W * H) {x y : Int}
    (hx0 : 0 ≤ x) (hx : x < W) (hy0 : 0 ≤ y) (hy : y < H) :
    ∃ b, a.setPix (y * a.Stride + x) 1 = .ok b ∧
      Paints W H (fun x' y' => x' = x ∧ y' = y) a b := by
  obtain ⟨h0, h1⟩ := offset_lt hx0 hx hy0 hy
  refine ⟨⟨a.Pix.set (y * W + x).toNat 1, a.Stride, a.Rect, a.Palette⟩, ?_, ?_⟩
  · subst hS
    simp only [Paletted.setPix]
    rw [if_pos ⟨h0, by omega⟩]
  · refine ⟨rfl, rfl, rfl, by simp, ?_, ?_⟩
    · rintro x' y' _ _ _ _ ⟨rfl, rfl⟩
      simp only [List.get?_eq_getElem?]
      rw [List.getElem?_set_self]
      omega
    · intro x' y' hx0' hx' hy0' hy' hne
      simp only [List.get?_eq_getElem?]
      rw [List.getElem?_set_ne]
      intro heq
      have h0' := (offset_lt hx0' hx' hy0' hy').1
      have : y * W + x = y' * W + x' := by omega
      obtain ⟨e1, e2⟩ := offset_inj hx0 hx hx0' hx' this
      exact hne ⟨e1.symm, e2.symm⟩

theorem mem_loopRange {lo hi v : Int} : v ∈ loopRange lo hi ↔ lo ≤ v ∧ v < hi := by
  simp only [loopRange, List.mem_map, List.mem_range]
  constructor
  · rintro ⟨k, hk, rfl⟩
    omega
  · rintro ⟨h1, h2⟩
    exact ⟨(v - lo).toNat, by omega, by omega⟩

theorem paintColumn_paints {W H : Int} (x : Int) (ys : List Int) :
    ∀ (a : Paletted), a.Stride = W → (a.Pix.length : Int) = W * H →
      (∀ y ∈ ys, (0 ≤ x ∧ x < W) ∧ 0 ≤ y ∧ y < H) →
      ∃ b, ys.foldlM (fun palette y => palette.setPix (y * palette.Stride + x) 1) a = .ok b ∧
        Paints W H (fun x' y' => x' = x ∧ y' ∈ ys) a b := by
  induction ys with
  | nil =>
    intro a _ _ _
    exact ⟨a, rfl, (Paints.none W H a).congr (by simp)⟩
  | cons y ys ih =>
    intro a hS hL hin
    obtain ⟨⟨hx0, hx⟩, hy0, hy⟩ := hin y (List.mem_cons_self _ _)
    obtain ⟨b, hb, hab⟩ := setPix_paints hS hL hx0 hx hy0 hy
    obtain ⟨c, hc, hbc⟩ := ih b (hab.stride.trans hS) (by rw [hab.length]; exact hL)
      (fun y' hy' => hin y' (List.mem_cons_of_mem _ hy'))
    refine ⟨c, ?_, (hab.trans hbc).congr ?_⟩
    · rw [List.foldlM_cons, hb]
      exact hc
    · intro x' y' _ _ _ _
      simp only [List.mem_cons]
      tauto

theorem paintColumns_paints {W H : Int} (xs ys : List Int) :
    ∀ (a : Paletted), a.Stride = W → (a.Pix.length : Int) = W * H →
      (∀ x ∈ xs, ∀ y ∈ ys, (0 ≤ x ∧ x < W) ∧ 0 ≤ y ∧ y < H) →
      ∃ b, xs.foldlM (fun palette x =>
          ys.foldlM (fun palette y => palette.setPix (y * palette.Stride + x) 1) palette) a
            = .ok b ∧
        Paints W H (fun x' y' => x' ∈ xs ∧ y' ∈ ys) a b := by
  induction xs with
  | nil =>
    intro a _ _ _
    exact ⟨a, rfl, (Paints.none W H a).congr (by simp)⟩
  | cons x xs ih =>
    intro a hS hL hin
    obtain ⟨b, hb, hab⟩ := paintColumn_paints x ys a hS hL (hin x (List.mem_cons_self _ _))
    obtain ⟨c, hc, hbc⟩ := ih b (hab.stride.trans hS) (by rw [hab.length]; exact hL)
      (fun x' hx' => hin x' (List.mem_cons_of_mem _ hx'))
    refine ⟨c, ?_, (hab.trans hbc).congr ?_⟩
    · rw [List.foldlM_cons, hb]
      exact hc
    · intro x' y' _ _ _ _
      simp only [List.mem_cons]
      tauto

theorem paintRect_paints {W H : Int} (r : Rectangle) (a : Paletted) (hS : a.Stride = W)
    (hL : (a.Pix.length : Int) = W * H) (hr : r.Fits W H) :
    ∃ b, paintRect a r = .ok b ∧ Paints W H (fun x y => (Point.mk x y).In r) a b := by
  obtain ⟨b, hb, hab⟩ := paintColumns_paints (loopRange r.Min.X r.Max.X)
    (loopRange r.Min.Y r.Max.Y) a hS hL (by
      intro x hx y hy
      rw [mem_loopRange] at hx hy
      exact hr x y ⟨hx.1, hx.2, hy.1, hy.2⟩)
  refine ⟨b, hb, hab.congr ?_⟩
  intro x y _ _ _ _
  simp only [mem_loopRange, Point.In]
  tauto

theorem paintRects_paints {W H : Int} (rects : List Rectangle) :
    ∀ (a : Paletted), a.Stride = W → (a.Pix.length : Int) = W * H →
      (∀ r ∈ rects, r.Fits W H) →
      ∃ b, rects.foldlM paintRect a = .ok b ∧
        Paints W H (fun x y => ∃ r ∈ rects, (Point.mk x y).In r) a b := by
  induction rects with
  | nil =>
    intro a _ _ _
    exact ⟨a, rfl, (Paints.none W H a).congr (by simp)⟩
  | cons r rects ih =>
    intro a hS hL hin
    obtain ⟨b, hb, hab⟩ := paintRect_paints r a hS hL (hin r (List.mem_cons_self _ _))
    obtain ⟨c, hc, hbc⟩ := ih b (hab.stride.trans hS) (by rw [hab.length]; exact hL)
      (fun r' hr' => hin r' (List.mem_cons_of_mem _ hr'))
    refine ⟨c, ?_, (hab.trans hbc).congr ?_⟩
    · rw [List.foldlM_cons, hb]
      exact hc
    · intro x y _ _ _ _
      simp only [List.mem_cons, exists_eq_or_imp]

/-! ## The cell matrix -/

theorem fill_ok (g : Generator) {n : Int} {digest : List Byte} (h0 : 0 ≤ n)
    (h1 : n < 8 * digest.length) : g.fill n digest = .ok (fillBit n digest) := by
  have hd : Int.tdiv n 8 = n / 8 := Int.tdiv_eq_ediv h0 (by decide)
  have hm : Int.tmod n 8 = n % 8 := Int.tmod_eq_emod h0 (by decide)
  have hlt : (n / 8).toNat < digest.length := by omega
  obtain ⟨b, hb⟩ : ∃ b, digest.get? (n / 8).toNat = some b :=
    ⟨_, List.get?_eq_get hlt⟩
  simp only [Generator.fill, fillBit, index, hd, hm, hb]
  rw [if_neg (by omega)]
  simp only [bind, Except.bind]
  rw [if_neg (by omega)]
  rfl

theorem makeMatrixStep_ok (g : Generator) {digest : List Byte} {blockSize : Int}
    (width cols padding : Int) (res : List Rectangle) {i : Int} (h0 : 0 ≤ i)
    (h1 : i < 8 * digest.length) (hb : blockSize ≠ 0) :
    g.makeMatrixStep digest blockSize width cols padding res i =
      .ok (res ++ if fillBit i digest then cellRects blockSize width cols padding i else []) := by
  simp only [Generator.makeMatrixStep, fill_ok g h0 h1, goDiv, if_neg hb, bind, Except.bind,
    pure, Except.pure, cellRects, Pt]
  cases fillBit i digest with
  | false => simp
  | true =>
    by_cases hc : Int.tdiv i blockSize < cols - 1
    · have hne : Int.tdiv i blockSize ≠ cols - 1 := by omega
      simp [hc, hne]
    · by_cases he : Int.tmod blockSize 2 = 0 ∧ Int.tdiv i blockSize = cols - 1
      · simp [hc, he]
      · simp [hc, he]

theorem foldlM_append_ok {α β : Type} (step : List β → α → Except Panic (List β))
    (f : α → List β) (l : List α) :
    ∀ (res : List β), (∀ a ∈ l, ∀ r, step r a = .ok (r ++ f a)) →
      l.foldlM step res = .ok (res ++ l.flatMap f) := by
  induction l with
  | nil => intro res _; simp [pure, Except.pure]
  | cons a l ih =>
    intro res h
    rw [List.foldlM_cons, h a (List.mem_cons_self _ _) res]
    simp only [bind, Except.bind]
    rw [ih _ (fun a' ha' => h a' (List.mem_cons_of_mem _ ha'))]
    simp [List.flatMap_cons]

theorem int64_le {x : Int} (h : 0 ≤ x) : int64 x ≤ x := by
  unfold int64
  omega

theorem int64_eq {x : Int} (h0 : -9223372036854775808 ≤ x) (h1 : x < 9223372036854775808) :
    int64 x = x := by
  unfold int64
  omega

theorem cells_nonneg {bs : Int} (hb : 1 ≤ bs) :
    0 ≤ bs * (Int.tdiv bs 2 + Int.tmod bs 2) := by
  apply mul_nonneg (by omega)
  rw [Int.tdiv_eq_ediv (by omega) (by decide), Int.tmod_eq_emod (by omega) (by decide)]
  omega

/-- The loop of `makeMatrix` never runs past the exact number of cells. -/
theorem int64_cells_le {bs : Int} (hb : 1 ≤ bs) :
    int64 (bs * (Int.tdiv bs 2 + Int.tmod bs 2)) ≤ bs * (Int.tdiv bs 2 + Int.tmod bs 2) :=
  int64_le (cells_nonneg hb)

theorem makeMatrix_ok_wrapped (g : Generator) (digest : List Byte)
    (hb : 1 ≤ g.Options.BlockSize)
    (hlen : int64 (g.Options.BlockSize *
      (Int.tdiv g.Options.BlockSize 2 + Int.tmod g.Options.BlockSize 2)) ≤
        8 * digest.length) :
    g.makeMatrix digest = .ok (matrixRects g.Options.BlockSize g.Options.IconSize digest) := by
  simp only [Generator.makeMatrix, goDiv, matrixRects]
  rw [if_neg (by omega)]
  simp only [bind, Except.bind]
  rw [foldlM_append_ok _ (fun i => if fillBit i digest then cellRects g.Options.BlockSize
    (Int.tdiv g.Options.IconSize (g.Options.BlockSize + 1))
    (Int.tdiv g.Options.BlockSize 2 + Int.tmod g.Options.BlockSize 2)
    (Int.tdiv (Int.tdiv g.Options.IconSize (g.Options.BlockSize + 1)) 2) i else [])]
  · simp
  · intro i hi r
    rw [mem_loopRange] at hi
    exact makeMatrixStep_ok g _ _ _ r hi.1 (by omega) (by omega)

theorem makeMatrix_ok (g : Generator) (digest : List Byte) (hb : 1 ≤ g.Options.BlockSize)
    (hlen : g.Options.BlockSize *
      (Int.tdiv g.Options.BlockSize 2 + Int.tmod g.Options.BlockSize 2) ≤ 8 * digest.length) :
    g.makeMatrix digest = .ok (matrixRects g.Options.BlockSize g.Options.IconSize digest) :=
  makeMatrix_ok_wrapped g digest hb (le_trans (int64_cells_le hb) hlen)

/-- The facts about the grid geometry that the bounds below rest on. -/
theorem grid_facts {bs size i : Int} (hb : 1 ≤ bs) (hs : 0 ≤ size) (hi0 : 0 ≤ i)
    (hi : i < bs * (Int.tdiv bs 2 + Int.tmod bs 2)) :
    ∃ w pad cols c : Int,
      Int.tdiv size (bs + 1) = w ∧ Int.tdiv w 2 = pad ∧
      Int.tdiv bs 2 + Int.tmod bs 2 = cols ∧ Int.tdiv i bs = c ∧
      0 ≤ w ∧ pad = w / 2 ∧ cols = bs / 2 + bs % 2 ∧ Int.tmod bs 2 = bs % 2 ∧
      0 ≤ c ∧ c < cols ∧ bs * w + w ≤ size ∧ 0 ≤ c * w ∧ c * w + w ≤ cols * w ∧
      cols * w ≤ bs * w ∧ (bs % 2 = 0 → cols * w + w ≤ bs * w) ∧
      (bs - c - 1) * w = bs * w - c * w - w := by
  have hd2 : Int.tdiv bs 2 = bs / 2 := Int.tdiv_eq_ediv (by omega) (by decide)
  have hm2 : Int.tmod bs 2 = bs % 2 := Int.tmod_eq_emod (by omega) (by decide)
  have hw : Int.tdiv size (bs + 1) = size / (bs + 1) := Int.tdiv_eq_ediv hs (by omega)
  have hw0 : 0 ≤ size / (bs + 1) := Int.ediv_nonneg hs (by omega)
  have hp : Int.tdiv (size / (bs + 1)) 2 = size / (bs + 1) / 2 :=
    Int.tdiv_eq_ediv hw0 (by decide)
  have hc : Int.tdiv i bs = i / bs := Int.tdiv_eq_ediv hi0 (by omega)
  have hc0 : 0 ≤ i / bs := Int.ediv_nonneg hi0 (by omega)
  have hclt : i / bs < bs / 2 + bs % 2 := by
    apply Int.ediv_lt_of_lt_mul (by omega)
    rw [hd2, hm2, mul_comm] at hi
    exact hi
  have hle : size / (bs + 1) * (bs + 1) ≤ size := Int.ediv_mul_le _ (by omega)
  have e1 : size / (bs + 1) * (bs + 1) = bs * (size / (bs + 1)) + size / (bs + 1) := by ring
  have m1 : (i / bs + 1) * (size / (bs + 1)) ≤ (bs / 2 + bs % 2) * (size / (bs + 1)) :=
    mul_le_mul_of_nonneg_right (by omega) hw0
  have e2 : (i / bs + 1) * (size / (bs + 1)) = i / bs * (size / (bs + 1)) + size / (bs + 1) := by
    ring
  have m2 : (bs / 2 + bs % 2) * (size / (bs + 1)) ≤ bs * (size / (bs + 1)) :=
    mul_le_mul_of_nonneg_right (by omega) hw0
  have m3 : bs % 2 = 0 →
      (bs / 2 + bs % 2) * (size / (bs + 1)) + size / (bs + 1) ≤ bs * (size / (bs + 1)) := by
    intro he
    have : (bs / 2 + bs % 2 + 1) * (size / (bs + 1)) ≤ bs * (size / (bs + 1)) :=
      mul_le_mul_of_nonneg_right (by omega) hw0
    have e3 : (bs / 2 + bs % 2 + 1) * (size / (bs + 1)) =
        (bs / 2 + bs % 2) * (size / (bs + 1)) + size / (bs + 1) := by ring
    omega
  refine ⟨size / (bs + 1), size / (bs + 1) / 2, bs / 2 + bs % 2, i / bs, hw, ?_, ?_, hc, hw0,
    rfl, rfl, hm2, hc0, hclt, by omega, mul_nonneg hc0 hw0, by omega, m2, m3, by ring⟩
  · exact hp
  · rw [hd2, hm2]

theorem cellRects_bounds {bs size i : Int} (hb : 1 ≤ bs) (hs : 0 ≤ size) (hi0 : 0 ≤ i)
    (hi : i < bs * (Int.tdiv bs 2 + Int.tmod bs 2)) :
    ∀ r ∈ cellRects bs (Int.tdiv size (bs + 1)) (Int.tdiv bs 2 + Int.tmod bs 2)
        (Int.tdiv (Int.tdiv size (bs + 1)) 2) i,
      (0 ≤ r.Min.X ∧ r.Min.X ≤ r.Max.X ∧ r.Max.X ≤ size) ∧
      (0 ≤ r.Min.Y ∧ r.Min.Y ≤ r.Max.Y ∧ r.Max.Y ≤ size) := by
  obtain ⟨w, pad, cols, c, hw, hp, hcols, hc, hw0, hpad, hcv, hm2, hc0, hclt, hsz, hcw0, hcw,
    hcb, hev, hmir⟩ := grid_facts hb hs hi0 hi
  rw [hw, hp, hcols]
  intro r hr
  simp only [cellRects, hc, hm2] at hr
  split_ifs at hr with h1 h2 h3
  all_goals simp only [List.mem_cons, List.mem_singleton, List.not_mem_nil, or_false] at hr
  · omega
  · rcases hr with rfl | rfl
    · simp only
      omega
    · simp only [hmir]
      omega
  · subst hr
    simp only
    have := hev h3.1
    have : c * w + w = cols * w := by
      have : c = cols - 1 := h3.2
      subst this
      ring
    omega
  · subst hr
    simp only
    omega

theorem matrixRects_bounds {bs size : Int} (digest : List Byte) (hb : 1 ≤ bs) (hs : 0 ≤ size) :
    ∀ r ∈ matrixRects bs size digest,
      (0 ≤ r.Min.X ∧ r.Min.X ≤ r.Max.X ∧ r.Max.X ≤ size) ∧
      (0 ≤ r.Min.Y ∧ r.Min.Y ≤ r.Max.Y ∧ r.Max.Y ≤ size) := by
  intro r hr
  simp only [matrixRects, List.mem_flatMap, mem_loopRange] at hr
  obtain ⟨i, ⟨hi0, hi⟩, hr⟩ := hr
  have hi := lt_of_lt_of_le hi (int64_cells_le hb)
  split_ifs at hr
  · exact cellRects_bounds hb hs hi0 hi r hr
  · simp at hr

theorem matrixRects_fits {bs size : Int} (digest : List Byte) (hb : 1 ≤ bs) (hs : 0 ≤ size) :
    ∀ r ∈ matrixRects bs size digest, r.Fits size size := by
  intro r hr x y hin
  have := matrixRects_bounds digest hb hs r hr
  simp only [Point.In] at hin
  omega

/-! ## Colours, canvas and the whole of `Generate` -/

theorem pickColors_ok (g : Generator) (d0 : Byte) (rest : List Byte)
    (hf : g.Foreground ≠ []) :
    ∃ c, g.Foreground.get? (d0.val % g.Foreground.length) = some c ∧
      g.pickColors (d0 :: rest) =
        .ok (if g.Options.Inverted then (g.Background, c) else (c, g.Background)) := by
  have hpos : 0 < g.Foreground.length := List.length_pos.mpr hf
  have hlt : d0.val % g.Foreground.length < g.Foreground.length := Nat.mod_lt _ hpos
  have hm : Int.tmod (d0.val : Int) (g.Foreground.length : Int) =
      ((d0.val % g.Foreground.length : Nat) : Int) := by
    rw [Int.tmod_eq_emod (by omega) (by omega)]
    norm_cast
  refine ⟨g.Foreground.get ⟨_, hlt⟩, List.get?_eq_get hlt, ?_⟩
  have hidx : index g.Foreground ((d0.val % g.Foreground.length : Nat) : Int) =
      .ok (g.Foreground.get ⟨_, hlt⟩) := by
    simp only [index]
    rw [if_neg (by omega)]
    simp only [Int.toNat_ofNat, List.get?_eq_get hlt]
  have h0 : index (d0 :: rest) 0 = .ok d0 := rfl
  have hne : ((g.Foreground.length : Nat) : Int) ≠ 0 := by omega
  simp only [Generator.pickColors, h0, goMod, if_neg hne, hm, hidx, bind, Except.bind, pure,
    Except.pure]
  cases g.Options.Inverted <;> rfl

theorem makePalette_eq (g : Generator) (fg bg : NRGBA) (hs : 0 ≤ g.Options.IconSize) :
    g.makePalette fg bg =
      ⟨List.replicate (g.Options.IconSize * g.Options.IconSize).toNat 0, g.Options.IconSize,
        ⟨⟨0, 0⟩, ⟨g.Options.IconSize, g.Options.IconSize⟩⟩, [bg, fg]⟩ := by
  simp only [Generator.makePalette, NewPaletted, Rect, Rectangle.Dx, Rectangle.Dy]
  rw [if_neg (by omega)]
  simp

/-- What `render` returns on a valid configuration with a digest long enough. -/
theorem render_ok (g : Generator) (digest : List Byte) (hb : 1 ≤ g.Options.BlockSize)
    (hs : 0 ≤ g.Options.IconSize) (hf : g.Foreground ≠ [])
    (hlen : g.Options.BlockSize *
      (Int.tdiv g.Options.BlockSize 2 + Int.tmod g.Options.BlockSize 2) ≤ 8 * digest.length) :
    ∃ img d0 c, g.render digest = .ok img ∧ digest.head? = some d0 ∧
      g.Foreground.get? (d0.val % g.Foreground.length) = some c ∧
      img.Palette = (if g.Options.Inverted then [c, g.Background] else [g.Background, c]) ∧
      img.Rect = ⟨⟨0, 0⟩, ⟨g.Options.IconSize, g.Options.IconSize⟩⟩ ∧
      img.Stride = g.Options.IconSize ∧
      (img.Pix.length : Int) = g.Options.IconSize * g.Options.IconSize ∧
      (∀ x y, 0 ≤ x → x < g.Options.IconSize → 0 ≤ y → y < g.Options.IconSize →
        ((∃ r ∈ matrixRects g.Options.BlockSize g.Options.IconSize digest,
            (Point.mk x y).In r) →
          img.Pix.get? (y * g.Options.IconSize + x).toNat = some 1) ∧
        ((¬ ∃ r ∈ matrixRects g.Options.BlockSize g.Options.IconSize digest,
            (Point.mk x y).In r) →
          img.Pix.get? (y * g.Options.IconSize + x).toNat = some 0)) := by
  have hcells : 1 ≤ g.Options.BlockSize *
      (Int.tdiv g.Options.BlockSize 2 + Int.tmod g.Options.BlockSize 2) := by
    have hd2 : Int.tdiv g.Options.BlockSize 2 = g.Options.BlockSize / 2 :=
      Int.tdiv_eq_ediv (by omega) (by decide)
    have hm2 : Int.tmod g.Options.BlockSize 2 = g.Options.BlockSize % 2 :=
      Int.tmod_eq_emod (by omega) (by decide)
    rw [hd2, hm2]
    have : 1 * 1 ≤ g.Options.BlockSize * (g.Options.BlockSize / 2 + g.Options.BlockSize % 2) :=
      mul_le_mul hb (by omega) (by decide) (by omega)
    omega
  obtain ⟨d0, rest, rfl⟩ : ∃ d0 rest, digest = d0 :: rest := by
    cases digest with
    | nil => simp at hlen; omega
    | cons d0 rest => exact ⟨d0, rest, rfl⟩
  obtain ⟨c, hc, hpick⟩ := pickColors_ok g d0 rest hf
  have hsz : 0 ≤ g.Options.IconSize * g.Options.IconSize := mul_nonneg hs hs
  obtain ⟨img, himg, hp⟩ := paintRects_paints
    (matrixRects g.Options.BlockSize g.Options.IconSize (d0 :: rest))
    ⟨List.replicate (g.Options.IconSize * g.Options.IconSize).toNat 0, g.Options.IconSize,
      ⟨⟨0, 0⟩, ⟨g.Options.IconSize, g.Options.IconSize⟩⟩,
      (if g.Options.Inverted then [c, g.Background] else [g.Background, c])⟩
    rfl (by simp only [List.length_replicate]; omega)
    (matrixRects_fits (d0 :: rest) hb hs)
  refine ⟨img, d0, c, ?_, rfl, hc, hp.palette, hp.rect, hp.stride, ?_, ?_⟩
  · simp only [Generator.render, hpick, makeMatrix_ok g _ hb hlen, bind, Except.bind]
    rw [← himg]
    cases g.Options.Inverted <;> simp [makePalette_eq g _ _ hs]
  · rw [hp.length]
    simp only [List.length_replicate]
    omega
  · intro x y hx0 hx hy0 hy
    refine ⟨fun h => hp.painted x y hx0 hx hy0 hy h, fun h => ?_⟩
    rw [hp.kept x y hx0 hx hy0 hy h]
    have := offset_lt hx0 hx hy0 hy
    simp only [List.get?_eq_getElem?]
    rw [List.getElem?_replicate, if_pos (by omega)]

theorem hashData_eq (g : Generator) (h : Hash) (identity : List Byte)
    (hh : g.Options.Hash = some h) :
    g.hashData identity = .ok (g.digestOf h identity, g.afterHash h identity) := by
  simp only [Generator.hashData, hh]
  rfl

theorem Generate_eq (g : Generator) (h : Hash) (identity : List Byte)
    (hh : g.Options.Hash = some h) :
    g.Generate identity =
      ((g.afterHash h identity).render (g.digestOf h identity)).map
        (fun img => (img, g.afterHash h identity)) := by
  simp only [Generator.Generate, hashData_eq g h identity hh, bind, Except.bind, Except.map]
  cases (g.afterHash h identity).render (g.digestOf h identity) <;> rfl

theorem ColorIndexAt_eq (img : Paletted) (size : Int) (v : Byte) {x y : Int}
    (hr : img.Rect = ⟨⟨0, 0⟩, ⟨size, size⟩⟩) (hS : img.Stride = size)
    (hx0 : 0 ≤ x) (hx : x < size) (hy0 : 0 ≤ y) (hy : y < size)
    (hv : img.Pix.get? (y * size + x).toNat = some v) : img.ColorIndexAt x y = .ok v := by
  have h0 := (offset_lt hx0 hx hy0 hy).1
  simp only [Paletted.ColorIndexAt, Point.In, Paletted.PixOffset, hr, hS, index]
  rw [if_neg (by simp only [not_not]; omega)]
  simp only [sub_zero, mul_one]
  rw [if_neg (by omega), hv]

theorem column_facts {bs i : Int} (hb : 1 ≤ bs) (hi0 : 0 ≤ i)
    (hi : i < bs * (Int.tdiv bs 2 + Int.tmod bs 2)) :
    ∃ c : Int, Int.tdiv i bs = c ∧ 0 ≤ c ∧ c < Int.tdiv bs 2 + Int.tmod bs 2 ∧
      Int.tdiv bs 2 + Int.tmod bs 2 = bs / 2 + bs % 2 ∧ Int.tmod bs 2 = bs % 2 := by
  have hd2 : Int.tdiv bs 2 = bs / 2 := Int.tdiv_eq_ediv (by omega) (by decide)
  have hm2 : Int.tmod bs 2 = bs % 2 := Int.tmod_eq_emod (by omega) (by decide)
  have hc : Int.tdiv i bs = i / bs := Int.tdiv_eq_ediv hi0 (by omega)
  refine ⟨i / bs, hc, Int.ediv_nonneg hi0 (by omega), ?_, by rw [hd2, hm2], hm2⟩
  apply Int.ediv_lt_of_lt_mul (by omega)
  rw [mul_comm] at hi
  exact hi

theorem cellRects_mirror {bs i : Int} (w pad : Int) (hb : 1 ≤ bs) (hi0 : 0 ≤ i)
    (hi : i < bs * (Int.tdiv bs 2 + Int.tmod bs 2)) :
    ∀ r ∈ cellRects bs w (Int.tdiv bs 2 + Int.tmod bs 2) pad i,
      r.mirror (2 * pad + bs * w) ∈ cellRects bs w (Int.tdiv bs 2 + Int.tmod bs 2) pad i := by
  obtain ⟨c, hc, hc0, hclt, hcols, hm2⟩ := column_facts hb hi0 hi
  intro r hr
  simp only [cellRects, hc, hm2] at hr ⊢
  split_ifs at hr ⊢ with h1 h2 h3
  all_goals simp only [List.mem_cons, List.mem_singleton, List.not_mem_nil, or_false] at hr ⊢
  · omega
  · rcases hr with rfl | rfl
    · right
      simp only [Rectangle.mirror, Rectangle.mk.injEq, Point.mk.injEq]
      refine ⟨⟨?_, trivial⟩, ?_, trivial⟩ <;> ring
    · left
      simp only [Rectangle.mirror, Rectangle.mk.injEq, Point.mk.injEq]
      refine ⟨⟨?_, trivial⟩, ?_, trivial⟩ <;> ring
  · subst hr
    have hbs : bs = 2 * c + 2 := by omega
    simp only [Rectangle.mirror, Rectangle.mk.injEq, Point.mk.injEq]
    subst hbs
    refine ⟨⟨?_, trivial⟩, ?_, trivial⟩ <;> ring
  · subst hr
    have hbs : bs = 2 * c + 1 := by omega
    simp only [Rectangle.mirror, Rectangle.mk.injEq, Point.mk.injEq]
    subst hbs
    refine ⟨⟨?_, trivial⟩, ?_, trivial⟩ <;> ring

theorem matrixRects_mirror {bs size : Int} (digest : List Byte) (hb : 1 ≤ bs) :
    ∀ r ∈ matrixRects bs size digest,
      r.mirror (2 * Int.tdiv (Int.tdiv size (bs + 1)) 2 + bs * Int.tdiv size (bs + 1)) ∈
        matrixRects bs size digest := by
  intro r hr
  simp only [matrixRects, List.mem_flatMap, mem_loopRange] at hr ⊢
  obtain ⟨i, ⟨hi0, hi⟩, hr⟩ := hr
  refine ⟨i, ⟨hi0, hi⟩, ?_⟩
  have hi := lt_of_lt_of_le hi (int64_cells_le hb)
  split_ifs at hr ⊢
  · exact cellRects_mirror _ _ hb hi0 hi r hr
  · simp at hr

theorem mirror_mirror (m : Int) (r : Rectangle) : (r.mirror m).mirror m = r := by
  simp [Rectangle.mirror]

theorem In_mirror (m x y : Int) (r : Rectangle) :
    (Point.mk (m - 1 - x) y).In (r.mirror m) ↔ (Point.mk x y).In r := by
  simp only [Point.In, Rectangle.mirror]
  constructor <;> intro h <;> omega

theorem Covers_mirror (pad w bs c row : Int) (r : Rectangle) :
    (r.mirror (2 * pad + bs * w)).Covers (cellBox pad w (bs - 1 - c) row) ↔
      r.Covers (cellBox pad w c row) := by
  simp only [Rectangle.Covers, Rectangle.mirror, cellBox]
  have e1 : (bs - 1 - c) * w = bs * w - w - c * w := by ring
  have e2 : (bs - 1 - c + 1) * w = bs * w - c * w := by ring
  have e3 : (c + 1) * w = c * w + w := by ring
  rw [e1, e2, e3]
  constructor <;> intro h <;> omega

theorem hashData_inv {g g' : Generator} {identity digest : List Byte}
    (hd : g.hashData identity = .ok (digest, g')) :
    ∃ h, g.Options.Hash = some h ∧ digest = g.digestOf h identity ∧
      g' = g.afterHash h identity := by
  cases hh : g.Options.Hash with
  | none => simp [Generator.hashData, hh] at hd
  | some h =>
    rw [hashData_eq g h identity hh] at hd
    simp only [Except.ok.injEq, Prod.mk.injEq] at hd
    exact ⟨h, rfl, hd.1.symm, hd.2.symm⟩

theorem sha1.sum_length (msg : List Byte) : (sha1.sum msg).length = 20 := rfl

set_option maxRecDepth 100000

/-- SHA-1 of `"a"`: `86f7e437faa5a7fce15d1ddcb9eaeaea377667b8`. -/
theorem sha1.sum_a : sha1.sum [97] =
    [134, 247, 228, 55, 250, 165, 167, 252, 225, 93, 29, 220, 185, 234, 234, 234, 55, 118,
      103, 184] := by decide

/-- SHA-1 of `"aa"`: `e0c9035898dd52fc65c41454cec9c4d2611bfb37`. -/
theorem sha1.sum_aa : sha1.sum [97, 97] =
    [224, 201, 3, 88, 152, 221, 82, 252, 101, 196, 20, 84, 206, 201, 196, 210, 97, 27, 251,
      55] := by decide

theorem foldlM_map_comm {α β : Type} (step : β → α → Except Panic β) (φ : β → β)
    (hstep : ∀ b a, step (φ b) a = (step b a).map φ) (l : List α) :
    ∀ b, l.foldlM step (φ b) = (l.foldlM step b).map φ := by
  induction l with
  | nil => intro b; rfl
  | cons a l ih =>
    intro b
    rw [List.foldlM_cons, List.foldlM_cons, hstep]
    cases step b a with
    | error e => rfl
    | ok b' => exact ih b'

theorem setPix_withPalette (img : Paletted) (p : List NRGBA) (i : Int) (v : Byte) :
    (img.withPalette p).setPix i v = (img.setPix i v).map (fun b => b.withPalette p) := by
  simp only [Paletted.setPix, Paletted.withPalette]
  split_ifs <;> rfl

theorem paintRect_withPalette (p : List NRGBA) (img : Paletted) (r : Rectangle) :
    paintRect (img.withPalette p) r = (paintRect img r).map (fun b => b.withPalette p) := by
  exact foldlM_map_comm
    (fun palette x => (loopRange r.Min.Y r.Max.Y).foldlM
      (fun palette y => palette.setPix (y * palette.Stride + x) 1) palette)
    (fun b => b.withPalette p)
    (fun b x => foldlM_map_comm (fun palette y => palette.setPix (y * palette.Stride + x) 1)
      (fun b => b.withPalette p) (fun b y => setPix_withPalette b p _ 1) _ b)
    (loopRange r.Min.X r.Max.X) img

theorem paintRects_withPalette (p : List NRGBA) (rects : List Rectangle) (img : Paletted) :
    rects.foldlM paintRect (img.withPalette p) =
      (rects.foldlM paintRect img).map (fun b => b.withPalette p) :=
  foldlM_map_comm paintRect (fun b => b.withPalette p)
    (fun b r => paintRect_withPalette p b r) rects img

/-- Painting never touches the palette. -/
theorem paintRects_palette {rects : List Rectangle} {img out : Paletted}
    (h : rects.foldlM paintRect img = .ok out) : out.Palette = img.Palette := by
  have h2 := paintRects_withPalette img.Palette rects img
  have e : img.withPalette img.Palette = img := rfl
  rw [e, h] at h2
  simp only [Except.map, Except.ok.injEq] at h2
  rw [h2]
  rfl

/-- The part of `render` that follows `pickColors`. -/
theorem render_eq (g : Generator) (digest : List Byte) :
    g.render digest = (g.pickColors digest).bind (fun c =>
      (g.makeMatrix digest).bind (fun rects =>
        rects.foldlM paintRect (g.makePalette c.1 c.2))) := by
  simp only [Generator.render, bind]

theorem makeMatrix_withInverted (g : Generator) (b : Bool) (digest : List Byte) :
    (g.withInverted b).makeMatrix digest = g.makeMatrix digest := rfl

theorem makePalette_withInverted (g : Generator) (b : Bool) (fg bg : NRGBA) :
    (g.withInverted b).makePalette fg bg =
      (NewPaletted (Rect 0 0 g.Options.IconSize g.Options.IconSize) []).withPalette
        [bg, fg] := rfl

/-- The colours `pickColors` returns, in terms of the chosen foreground colour. -/
theorem pickColors_eq (g : Generator) (digest : List Byte) :
    g.pickColors digest =
      ((index digest 0).bind (fun d0 =>
        (goMod (d0.val : Int) (g.Foreground.length : Int)).bind (fun i =>
          index g.Foreground i))).map
        (fun c => if g.Options.Inverted then (g.Background, c) else (c, g.Background)) := by
  simp only [Generator.pickColors, bind]
  cases index digest 0 with
  | error e => rfl
  | ok d0 =>
    simp only [Except.bind]
    cases goMod (d0.val : Int) (g.Foreground.length : Int) with
    | error e => rfl
    | ok i =>
      simp only [Except.bind]
      cases index g.Foreground i with
      | error e => cases g.Options.Inverted <;> rfl
      | ok c => cases g.Options.Inverted <;> rfl

theorem index_mem {α : Type} {s : List α} {i : Int} {a : α} (h : index s i = .ok a) :
    a ∈ s := by
  unfold index at h
  split_ifs at h
  cases hg : s.get? i.toNat with
  | none => rw [hg] at h; cases h
  | some b =>
    rw [hg] at h
    simp only [Except.ok.injEq] at h
    subst h
    exact List.get?_mem hg

theorem render_withInverted (g : Generator) (digest : List Byte) :
    (g.withInverted true).render digest =
      ((g.withInverted false).render digest).map Paletted.swapPalette ∧
    ∀ img, (g.withInverted false).render digest = .ok img →
      ∃ c ∈ g.Foreground, img.Palette = [g.Background, c] := by
  rw [render_eq, render_eq, pickColors_eq (g.withInverted true),
    pickColors_eq (g.withInverted false), makeMatrix_withInverted, makeMatrix_withInverted]
  have hF : ∀ b, (g.withInverted b).Foreground = g.Foreground := fun _ => rfl
  have hB : ∀ b, (g.withInverted b).Background = g.Background := fun _ => rfl
  have hI : ∀ b, (g.withInverted b).Options.Inverted = b := fun _ => rfl
  simp only [hF, hB, hI]
  cases hc : (index digest 0).bind (fun d0 =>
      (goMod (d0.val : Int) (g.Foreground.length : Int)).bind (fun i =>
        index g.Foreground i)) with
  | error e => exact ⟨rfl, fun img h => by cases h⟩
  | ok c =>
    have hmem : c ∈ g.Foreground := by
      cases h0 : index digest 0 with
      | error e => rw [h0] at hc; cases hc
      | ok d0 =>
        rw [h0] at hc
        simp only [Except.bind] at hc
        cases h1 : goMod (d0.val : Int) (g.Foreground.length : Int) with
        | error e => rw [h1] at hc; cases hc
        | ok i =>
          rw [h1] at hc
          exact index_mem hc
    simp only [Except.map, Except.bind, if_true, Bool.false_eq_true, if_false]
    cases g.makeMatrix digest with
    | error e => exact ⟨rfl, fun img h => by cases h⟩
    | ok rects =>
      simp only [makePalette_withInverted]
      rw [paintRects_withPalette, paintRects_withPalette]
      cases rects.foldlM paintRect
          (NewPaletted (Rect 0 0 g.Options.IconSize g.Options.IconSize) []) with
      | error e => exact ⟨rfl, fun img h => by cases h⟩
      | ok out =>
        refine ⟨rfl, fun img h => ⟨c, hmem, ?_⟩⟩
        simp only [Except.map, Except.ok.injEq] at h
        rw [← h]
        rfl

theorem foldlM_invariant {α β : Type} (P : β → Prop) (step : β → α → Except Panic β)
    (hstep : ∀ b a b', P b → step b a = .ok b' → P b') (l : List α) :
    ∀ b b', P b → l.foldlM step b = .ok b' → P b' := by
  induction l with
  | nil =>
    intro b b' hb h
    simp only [List.foldlM_nil, pure, Except.pure, Except.ok.injEq] at h
    exact h ▸ hb
  | cons a l ih =>
    intro b b' hb h
    rw [List.foldlM_cons] at h
    cases hs : step b a with
    | error e => rw [hs] at h; cases h
    | ok c =>
      rw [hs] at h
      exact ih c b' (hstep b a c hb hs) h

theorem setPix_twoValued {img out : Paletted} {i : Int} (hP : img.TwoValued)
    (h : img.setPix i 1 = .ok out) : out.TwoValued := by
  unfold Paletted.setPix at h
  split_ifs at h
  simp only [Except.ok.injEq] at h
  subst h
  intro p hp
  rcases List.mem_or_eq_of_mem_set hp with hm | he
  · exact hP p hm
  · exact Or.inr he

theorem paintRects_twoValued {rects : List Rectangle} {img out : Paletted}
    (hP : img.TwoValued) (h : rects.foldlM paintRect img = .ok out) : out.TwoValued := by
  refine foldlM_invariant Paletted.TwoValued paintRect ?_ rects img out hP h
  intro b r b' hb hr
  refine foldlM_invariant Paletted.TwoValued _ ?_ _ b b' hb hr
  intro b x b' hb hx
  refine foldlM_invariant Paletted.TwoValued _ ?_ _ b b' hb hx
  intro b y b' hb hy
  exact setPix_twoValued hb hy

/-- What can be said of every image `render` returns, whatever the configuration. -/
theorem render_inv {g : Generator} {digest : List Byte} {img : Paletted}
    (h : g.render digest = .ok img) :
    ∃ fg bg, g.pickColors digest = .ok (fg, bg) ∧ img.Palette = [bg, fg] ∧ img.TwoValued := by
  rw [render_eq] at h
  cases hp : g.pickColors digest with
  | error e => rw [hp] at h; cases h
  | ok c =>
    rw [hp] at h
    simp only [Except.bind] at h
    cases hm : g.makeMatrix digest with
    | error e => rw [hm] at h; cases h
    | ok rects =>
      rw [hm] at h
      simp only [Except.bind] at h
      refine ⟨c.1, c.2, rfl, paintRects_palette h, paintRects_twoValued ?_ h⟩
      intro p hp
      exact Or.inl (List.eq_of_mem_replicate hp)

theorem Generate_inv {g g' : Generator} {identity : List Byte} {img : Paletted}
    (h : g.Generate identity = .ok (img, g')) :
    ∃ hash, g.Options.Hash = some hash ∧ g' = g.afterHash hash identity ∧
      (g.afterHash hash identity).render (g.digestOf hash identity) = .ok img := by
  cases hh : g.Options.Hash with
  | none =>
    simp [Generator.Generate, Generator.hashData, hh, bind, Except.bind] at h
  | some hash =>
    rw [Generate_eq g hash identity hh] at h
    cases hr : (g.afterHash hash identity).render (g.digestOf hash identity) with
    | error e => rw [hr] at h; cases h
    | ok out =>
      rw [hr] at h
      simp only [Except.map, Except.ok.injEq, Prod.mk.injEq] at h
      exact ⟨hash, rfl, h.2.symm, by rw [hr, h.1]⟩

/-! ## The claims -/

/-- C2: for a generator with `BlockSize ≥ 1`, `IconSize ≥ 1`, a non-empty foreground list and a
digest long enough for the bit indexing, `Generate` returns a paletted image with bounds
`(0,0)-(IconSize,IconSize)`, so of width and height `IconSize`, in which pixel `(x, y)` has
index 1 exactly when it lies inside one of the rectangles `makeMatrix` returns for the digest,
and index 0 otherwise. -/
theorem Generate_paints_matrix (g g' : Generator) (identity digest : List Byte)
    (hd : g.hashData identity = .ok (digest, g'))
    (hb : 1 ≤ g.Options.BlockSize) (hs : 1 ≤ g.Options.IconSize) (hf : g.Foreground ≠ [])
    (hlen : g.Options.BlockSize *
      (Int.tdiv g.Options.BlockSize 2 + Int.tmod g.Options.BlockSize 2) ≤ 8 * digest.length) :
    ∃ img rects, g.Generate identity = .ok (img, g') ∧ g'.makeMatrix digest = .ok rects ∧
      img.Rect = ⟨⟨0, 0⟩, ⟨g.Options.IconSize, g.Options.IconSize⟩⟩ ∧
      img.Rect.Dx = g.Options.IconSize ∧ img.Rect.Dy = g.Options.IconSize ∧
      ∀ x y, 0 ≤ x → x < g.Options.IconSize → 0 ≤ y → y < g.Options.IconSize →
        img.ColorIndexAt x y = .ok (if ∃ r ∈ rects, (Point.mk x y).In r then 1 else 0) := by
  obtain ⟨h, hh, rfl, rfl⟩ := hashData_inv hd
  obtain ⟨img, d0, c, himg, -, -, -, hrect, hstride, -, hpix⟩ :=
    render_ok (g.afterHash h identity) (g.digestOf h identity) hb (by
      show 0 ≤ g.Options.IconSize
      omega) hf hlen
  refine ⟨img, _, ?_, makeMatrix_ok (g.afterHash h identity) _ hb hlen, hrect, ?_, ?_, ?_⟩
  · rw [Generate_eq g h identity hh, himg]
    rfl
  · rw [hrect]
    simp [Rectangle.Dx]
    rfl
  · rw [hrect]
    simp [Rectangle.Dy]
    rfl
  · intro x y hx0 hx hy0 hy
    apply ColorIndexAt_eq img g.Options.IconSize _ hrect hstride hx0 hx hy0 hy
    obtain ⟨h1, h2⟩ := hpix x y hx0 hx hy0 hy
    split_ifs with hin
    · exact h1 hin
    · exact h2 hin

/-- C2 at the sample generator and the identity `"a"`. -/
theorem Generate_paints_matrix_witness :
    ∃ img rects, sampleGenerator.Generate [97] =
        .ok (img, sampleGenerator.afterHash sha1.New [97]) ∧
      (sampleGenerator.afterHash sha1.New [97]).makeMatrix
        (sampleGenerator.digestOf sha1.New [97]) = .ok rects ∧
      img.Rect = ⟨⟨0, 0⟩, ⟨12, 12⟩⟩ ∧ img.Rect.Dx = 12 ∧ img.Rect.Dy = 12 ∧
      ∀ x y, 0 ≤ x → x < 12 → 0 ≤ y → y < 12 →
        img.ColorIndexAt x y = .ok (if ∃ r ∈ rects, (Point.mk x y).In r then 1 else 0) :=
  Generate_paints_matrix sampleGenerator _ [97] _
    (hashData_eq sampleGenerator sha1.New [97] rfl) (by decide) (by decide) (by decide)
    (by decide)

/-- C3: for `BlockSize ≥ 1`, any `IconSize` and a digest long enough to index, the rectangles
returned by `makeMatrix` are symmetric under horizontal mirroring of the grid: with
`width = IconSize / (BlockSize + 1)` and `pad = width / 2`, pixel `(x, y)` is painted iff pixel
`(2 * pad + BlockSize * width - 1 - x, y)` is painted, and grid cell `(c, r)` is covered by an
emitted rectangle iff cell `(BlockSize - 1 - c, r)` is. -/
theorem makeMatrix_symmetric (g : Generator) (digest : List Byte)
    (hb : 1 ≤ g.Options.BlockSize)
    (hlen : g.Options.BlockSize *
      (Int.tdiv g.Options.BlockSize 2 + Int.tmod g.Options.BlockSize 2) ≤ 8 * digest.length) :
    ∃ rects, g.makeMatrix digest = .ok rects ∧
      (∀ x y, (∃ r ∈ rects, (Point.mk x y).In r) ↔
        ∃ r ∈ rects, (Point.mk (2 * Int.tdiv (Int.tdiv g.Options.IconSize
          (g.Options.BlockSize + 1)) 2 + g.Options.BlockSize * Int.tdiv g.Options.IconSize
          (g.Options.BlockSize + 1) - 1 - x) y).In r) ∧
      (∀ c r, 0 ≤ c → c < g.Options.BlockSize → 0 ≤ r → r < g.Options.BlockSize →
        ((∃ rect ∈ rects, rect.Covers (cellBox (Int.tdiv (Int.tdiv g.Options.IconSize
            (g.Options.BlockSize + 1)) 2) (Int.tdiv g.Options.IconSize
            (g.Options.BlockSize + 1)) c r)) ↔
          ∃ rect ∈ rects, rect.Covers (cellBox (Int.tdiv (Int.tdiv g.Options.IconSize
            (g.Options.BlockSize + 1)) 2) (Int.tdiv g.Options.IconSize
            (g.Options.BlockSize + 1)) (g.Options.BlockSize - 1 - c) r))) := by
  refine ⟨_, makeMatrix_ok g digest hb hlen, ?_, ?_⟩
  · intro x y
    constructor
    · rintro ⟨r, hr, hin⟩
      exact ⟨_, matrixRects_mirror digest hb r hr, (In_mirror _ x y r).2 hin⟩
    · rintro ⟨r, hr, hin⟩
      refine ⟨_, matrixRects_mirror digest hb r hr, ?_⟩
      rw [← In_mirror (2 * Int.tdiv (Int.tdiv g.Options.IconSize
          (g.Options.BlockSize + 1)) 2 + g.Options.BlockSize * Int.tdiv g.Options.IconSize
          (g.Options.BlockSize + 1)), mirror_mirror]
      exact hin
  · intro c r _ _ _ _
    constructor
    · rintro ⟨rect, hr, hc⟩
      exact ⟨_, matrixRects_mirror digest hb rect hr, (Covers_mirror _ _ _ c r rect).2 hc⟩
    · rintro ⟨rect, hr, hc⟩
      refine ⟨_, matrixRects_mirror digest hb rect hr, ?_⟩
      rw [← Covers_mirror _ _ g.Options.BlockSize, mirror_mirror]
      have e : g.Options.BlockSize - 1 - (g.Options.BlockSize - 1 - c) = c := by ring
      rw [← e] at hc
      convert hc using 3
      ring

/-- C3 at the sample generator and the SHA-1 digest of `"a"`. -/
theorem makeMatrix_symmetric_witness :
    ∃ rects, sampleGenerator.makeMatrix (sha1.sum [97]) = .ok rects ∧
      (∀ x y, (∃ r ∈ rects, (Point.mk x y).In r) ↔
        ∃ r ∈ rects, (Point.mk (2 * Int.tdiv (Int.tdiv sampleGenerator.Options.IconSize
          (sampleGenerator.Options.BlockSize + 1)) 2 + sampleGenerator.Options.BlockSize *
          Int.tdiv sampleGenerator.Options.IconSize
          (sampleGenerator.Options.BlockSize + 1) - 1 - x) y).In r) ∧
      (∀ c r, 0 ≤ c → c < sampleGenerator.Options.BlockSize → 0 ≤ r →
        r < sampleGenerator.Options.BlockSize →
        ((∃ rect ∈ rects, rect.Covers (cellBox (Int.tdiv (Int.tdiv
            sampleGenerator.Options.IconSize (sampleGenerator.Options.BlockSize + 1)) 2)
            (Int.tdiv sampleGenerator.Options.IconSize
            (sampleGenerator.Options.BlockSize + 1)) c r)) ↔
          ∃ rect ∈ rects, rect.Covers (cellBox (Int.tdiv (Int.tdiv
            sampleGenerator.Options.IconSize (sampleGenerator.Options.BlockSize + 1)) 2)
            (Int.tdiv sampleGenerator.Options.IconSize
            (sampleGenerator.Options.BlockSize + 1))
            (sampleGenerator.Options.BlockSize - 1 - c) r))) :=
  makeMatrix_symmetric sampleGenerator (sha1.sum [97]) (by decide) (by decide)

/-- C1 (the code breaks it): on the default generator, two calls of `Generate` with the same
identity `"a"` return different images. The hash is never reset, so the second call hashes
`"aa"`: another foreground colour is picked and pixel `(49, 49)`, painted by the first call,
is background in the second image. -/
theorem Generate_twice_differs :
    ∃ img1 g1 img2 g2, NewDefaultGenerator.Generate [97] = .ok (img1, g1) ∧
      g1.Generate [97] = .ok (img2, g2) ∧
      img1.Palette = [rgb 224 224 224, rgb 254 180 44] ∧
      img2.Palette = [rgb 224 224 224, rgb 45 79 255] ∧
      img1.ColorIndexAt 49 49 = .ok 1 ∧ img2.ColorIndexAt 49 49 = .ok 0 ∧ img1 ≠ img2 := by
  have hd1 : NewDefaultGenerator.digestOf sha1.New [97] =
      [134, 247, 228, 55, 250, 165, 167, 252, 225, 93, 29, 220, 185, 234, 234, 234, 55, 118,
        103, 184] := sha1.sum_a
  have hd2 : (NewDefaultGenerator.afterHash sha1.New [97]).digestOf
      ((sha1.New.Write [97]).Write []) [97] =
      [224, 201, 3, 88, 152, 221, 82, 252, 101, 196, 20, 84, 206, 201, 196, 210, 97, 27, 251,
        55] := sha1.sum_aa
  obtain ⟨img1, d1, c1, h1, hh1, hc1, hp1, hr1, hs1, -, hx1⟩ :=
    render_ok (NewDefaultGenerator.afterHash sha1.New [97])
      (NewDefaultGenerator.digestOf sha1.New [97]) (by decide) (by decide) (by decide)
      (by rw [hd1]; decide)
  obtain ⟨img2, d2, c2, h2, hh2, hc2, hp2, hr2, hs2, -, hx2⟩ :=
    render_ok ((NewDefaultGenerator.afterHash sha1.New [97]).afterHash
        ((sha1.New.Write [97]).Write []) [97])
      ((NewDefaultGenerator.afterHash sha1.New [97]).digestOf
        ((sha1.New.Write [97]).Write []) [97]) (by decide) (by decide) (by decide)
      (by rw [hd2]; decide)
  rw [hd1] at hh1 hx1
  rw [hd2] at hh2 hx2
  simp only [List.head?_cons, Option.some.injEq] at hh1 hh2
  subst hh1 hh2
  have e1 : c1 = rgb 254 180 44 := by
    have : some (rgb 254 180 44) = some c1 := hc1
    exact (Option.some.inj this).symm
  have e2 : c2 = rgb 45 79 255 := by
    have : some (rgb 45 79 255) = some c2 := hc2
    exact (Option.some.inj this).symm
  subst e1 e2
  have p1 : img1.Palette = [rgb 224 224 224, rgb 254 180 44] := hp1
  have p2 : img2.Palette = [rgb 224 224 224, rgb 45 79 255] := hp2
  refine ⟨img1, NewDefaultGenerator.afterHash sha1.New [97], img2,
    (NewDefaultGenerator.afterHash sha1.New [97]).afterHash ((sha1.New.Write [97]).Write [])
      [97], ?_, ?_, p1, p2, ?_, ?_, ?_⟩
  · rw [Generate_eq NewDefaultGenerator sha1.New [97] rfl, h1]
    rfl
  · rw [Generate_eq (NewDefaultGenerator.afterHash sha1.New [97])
      ((sha1.New.Write [97]).Write []) [97] rfl, h2]
    rfl
  · exact ColorIndexAt_eq img1 _ 1 hr1 hs1 (by decide) (by decide) (by decide) (by decide)
      ((hx1 49 49 (by decide) (by decide) (by decide) (by decide)).1 (by decide))
  · exact ColorIndexAt_eq img2 _ 0 hr2 hs2 (by decide) (by decide) (by decide) (by decide)
      ((hx2 49 49 (by decide) (by decide) (by decide) (by decide)).2 (by decide))
  · intro h
    rw [h, p2] at p1
    exact absurd p1 (by decide)

/-- C4: the image generated with `Inverted = true` is the image generated with
`Inverted = false` with the two palette entries swapped: same pixel indices, stride and
bounds, palette `[chosen foreground, Background]` instead of `[Background, chosen foreground]`.
The two calls also fail together. -/
theorem Generate_inverted (g : Generator) (identity : List Byte) :
    (g.withInverted true).Generate identity =
        ((g.withInverted false).Generate identity).map
          (fun r => (r.1.swapPalette, r.2.withInverted true)) ∧
      ∀ img g', (g.withInverted false).Generate identity = .ok (img, g') →
        img.swapPalette.Pix = img.Pix ∧ img.swapPalette.Stride = img.Stride ∧
        img.swapPalette.Rect = img.Rect ∧
        ∃ c ∈ g.Foreground, img.Palette = [g.Background, c] ∧
          img.swapPalette.Palette = [c, g.Background] := by
  cases hh : g.Options.Hash with
  | none =>
    have h1 : ∀ b, (g.withInverted b).Generate identity = .error .nilDereference := by
      intro b
      have : (g.withInverted b).Options.Hash = none := hh
      simp [Generator.Generate, Generator.hashData, this, bind, Except.bind]
    rw [h1, h1]
    exact ⟨rfl, fun img g' h => by cases h⟩
  | some h =>
    have hG : ∀ b, (g.withInverted b).Generate identity =
        (((g.afterHash h identity).withInverted b).render (g.digestOf h identity)).map
          (fun img => (img, (g.afterHash h identity).withInverted b)) :=
      fun b => Generate_eq (g.withInverted b) h identity hh
    obtain ⟨hr1, hr2⟩ := render_withInverted (g.afterHash h identity) (g.digestOf h identity)
    rw [hG, hG, hr1]
    cases hres : ((g.afterHash h identity).withInverted false).render
        (g.digestOf h identity) with
    | error e => exact ⟨rfl, fun img g' h => by cases h⟩
    | ok out =>
      refine ⟨rfl, fun img g' hi => ?_⟩
      simp only [Except.map, Except.ok.injEq, Prod.mk.injEq] at hi
      obtain ⟨c, hc, hp⟩ := hr2 out hres
      rw [← hi.1]
      refine ⟨rfl, rfl, rfl, c, hc, hp, ?_⟩
      simp only [Paletted.swapPalette, Paletted.withPalette, hp]
      rfl

/-- C4 at the sample generator and the identity `"a"`: both calls return, with the same
pixels and the palette entries `rgb 9 9 9`, `rgb 1 2 3` in opposite orders. -/
theorem Generate_inverted_witness :
    (sampleGenerator.withInverted false).Generate [97] =
        .ok (sampleImage, (sampleGenerator.withInverted false).afterHash sha1.New [97]) ∧
      (sampleGenerator.withInverted true).Generate [97] =
        .ok (sampleImage.swapPalette,
          ((sampleGenerator.withInverted false).afterHash sha1.New [97]).withInverted true) ∧
      sampleImage.swapPalette.Pix = sampleImage.Pix ∧
      sampleImage.swapPalette.Stride = sampleImage.Stride ∧
      sampleImage.swapPalette.Rect = sampleImage.Rect ∧
      ∃ c ∈ sampleGenerator.Foreground, sampleImage.Palette = [sampleGenerator.Background, c] ∧
        sampleImage.swapPalette.Palette = [c, sampleGenerator.Background] := by
  have hg : (sampleGenerator.withInverted false).Generate [97] =
      .ok (sampleImage, (sampleGenerator.withInverted false).afterHash sha1.New [97]) := rfl
  obtain ⟨h1, h2⟩ := Generate_inverted sampleGenerator [97]
  refine ⟨hg, ?_, h2 _ _ hg⟩
  rw [h1, hg]
  rfl

/-- C5: with a non-empty foreground list, a non-empty digest and `Inverted = false`, the index
`digest[0] mod len(Foreground)` is a valid index into the list, `pickColors` returns the colour
`c` stored there as paint colour and `Background` as canvas colour, and every image `Generate`
allocates for that digest, and so every image it returns, has the palette `[Background, c]`:
index 0 is the background, index 1 the paint colour. -/
theorem Generate_colours (g : Generator) (d0 : Byte) (rest : List Byte)
    (hf : g.Foreground ≠ []) (hi : g.Options.Inverted = false) :
    d0.val % g.Foreground.length < g.Foreground.length ∧
    ∃ c, g.Foreground.get? (d0.val % g.Foreground.length) = some c ∧
      g.pickColors (d0 :: rest) = .ok (c, g.Background) ∧
      (g.makePalette c g.Background).Palette = [g.Background, c] ∧
      ∀ identity g' img, g.hashData identity = .ok (d0 :: rest, g') →
        g.Generate identity = .ok (img, g') →
        img.Palette = [g.Background, c] ∧ img.Palette.get? 0 = some g.Background ∧
          img.Palette.get? 1 = some c := by
  obtain ⟨c, hc, hp⟩ := pickColors_ok g d0 rest hf
  rw [hi] at hp
  refine ⟨Nat.mod_lt _ (List.length_pos.mpr hf), c, hc, hp, rfl, ?_⟩
  intro identity g' img hd hg
  obtain ⟨h, hh, hdig, rfl⟩ := hashData_inv hd
  obtain ⟨h', hh', -, hr⟩ := Generate_inv hg
  rw [hh] at hh'
  cases hh'
  obtain ⟨fg, bg, hpick, hpal, -⟩ := render_inv hr
  rw [← hdig] at hpick
  have hp' : (g.afterHash h identity).pickColors (d0 :: rest) = .ok (c, g.Background) := hp
  rw [hp'] at hpick
  simp only [Except.ok.injEq, Prod.mk.injEq] at hpick
  rw [hpal, ← hpick.1, ← hpick.2]
  exact ⟨rfl, rfl, rfl⟩

/-- C5 at the sample generator and the identity `"a"`: the digest starts with byte 134, the
list has two colours, so colour 0 is chosen. -/
theorem Generate_colours_witness :
    (134 : Byte).val % sampleGenerator.Foreground.length < sampleGenerator.Foreground.length ∧
    ∃ c, sampleGenerator.Foreground.get? ((134 : Byte).val % sampleGenerator.Foreground.length)
        = some c ∧
      sampleGenerator.pickColors (sha1.sum [97]) = .ok (c, sampleGenerator.Background) ∧
      (sampleGenerator.makePalette c sampleGenerator.Background).Palette =
        [sampleGenerator.Background, c] ∧
      sampleImage.Palette = [sampleGenerator.Background, c] ∧
      sampleImage.Palette.get? 0 = some sampleGenerator.Background ∧
      sampleImage.Palette.get? 1 = some c := by
  obtain ⟨h1, c, hc, hp, hm, hall⟩ := Generate_colours sampleGenerator 134
    [247, 228, 55, 250, 165, 167, 252, 225, 93, 29, 220, 185, 234, 234, 234, 55, 118, 103, 184]
    (by decide) rfl
  have hd : sampleGenerator.hashData [97] =
      .ok (sha1.sum [97], sampleGenerator.afterHash sha1.New [97]) :=
    hashData_eq sampleGenerator sha1.New [97] rfl
  rw [sha1.sum_a] at hd ⊢
  exact ⟨h1, c, hc, hp, hm, hall [97] _ sampleImage hd rfl⟩

/-- C6: every image `Generate` returns, whatever the configuration, has a palette of exactly
two entries, and every index in its pixel buffer is 0 or 1. -/
theorem Generate_palette_invariant (g g' : Generator) (identity : List Byte) (img : Paletted)
    (h : g.Generate identity = .ok (img, g')) :
    img.Palette.length = 2 ∧ ∀ p ∈ img.Pix, p = 0 ∨ p = 1 := by
  obtain ⟨hash, -, -, hr⟩ := Generate_inv h
  obtain ⟨fg, bg, -, hpal, htwo⟩ := render_inv hr
  exact ⟨by rw [hpal]; rfl, htwo⟩

/-- C6 at the sample generator and the identity `"a"`. -/
theorem Generate_palette_invariant_witness :
    sampleGenerator.Generate [97] =
        .ok (sampleImage, sampleGenerator.afterHash sha1.New [97]) ∧
      sampleImage.Palette.length = 2 ∧ ∀ p ∈ sampleImage.Pix, p = 0 ∨ p = 1 :=
  ⟨rfl, Generate_palette_invariant sampleGenerator _ [97] sampleImage rfl⟩

/-- C7 fails on the code: nothing is validated. Built by `NewGenerator`, a generator with
`IconSize = -4` and one with `BlockSize = -3` both make `Generate` return an image (all
background, of side 4 and 12), and one with an empty foreground list makes `Generate` stop
with the integer-divide-by-zero panic. -/
theorem invalid_configuration_not_rejected :
    ((NewGenerator [rgb 1 2 3] (rgb 9 9 9) ⟨[], none, 5, 0, -4, "", false⟩).Generate [97]).map
        Prod.fst =
      .ok ⟨List.replicate 16 0, 4, ⟨⟨-4, -4⟩, ⟨0, 0⟩⟩, [rgb 9 9 9, rgb 1 2 3]⟩ ∧
    ((NewGenerator [rgb 1 2 3] (rgb 9 9 9) ⟨[], none, -3, 0, 12, "", false⟩).Generate [97]).map
        Prod.fst =
      .ok ⟨List.replicate 144 0, 12, ⟨⟨0, 0⟩, ⟨12, 12⟩⟩, [rgb 9 9 9, rgb 1 2 3]⟩ ∧
    ((NewGenerator [] (rgb 9 9 9) ⟨[], none, 5, 0, 12, "", false⟩).Generate [97]).map
        Prod.fst =
      .error .divideByZero :=
  ⟨rfl, rfl, rfl⟩

/-- C7 as amended: for every generator whose foreground list is empty and every identity,
`Generate` returns no image: it stops with a run-time panic, which is the integer divide by
zero of `pickColors` whenever the hash is set and the digest is non-empty. -/
theorem empty_foreground_panics (g : Generator) (identity : List Byte)
    (hf : g.Foreground = []) :
    (∃ e, g.Generate identity = .error e) ∧
      ∀ h d0 rest, g.Options.Hash = some h → g.digestOf h identity = d0 :: rest →
        g.Generate identity = .error .divideByZero := by
  have key : ∀ h, g.Options.Hash = some h →
      (∃ e, g.Generate identity = .error e) ∧
        ∀ d0 rest, g.digestOf h identity = d0 :: rest →
          g.Generate identity = .error .divideByZero := by
    intro h hh
    have hlen : (g.afterHash h identity).Foreground.length = 0 := by
      show g.Foreground.length = 0
      rw [hf]
      rfl
    rw [Generate_eq g h identity hh, render_eq, pickColors_eq, hlen]
    cases hd : g.digestOf h identity with
    | nil => exact ⟨⟨_, rfl⟩, fun d0 rest h => by cases h⟩
    | cons d0 rest => exact ⟨⟨_, rfl⟩, fun _ _ _ => rfl⟩
  cases hh : g.Options.Hash with
  | none =>
    refine ⟨⟨.nilDereference, ?_⟩, fun h d0 rest h' => by cases h'⟩
    simp [Generator.Generate, Generator.hashData, hh, bind, Except.bind]
  | some h =>
    obtain ⟨h1, h2⟩ := key h hh
    refine ⟨h1, fun h' d0 rest he hd => ?_⟩
    cases he
    exact h2 d0 rest hd

/-- C7 as amended, at the generator `NewGenerator` builds from an empty foreground list and
the identity `"a"`. -/
theorem empty_foreground_panics_witness :
    (∃ e, (NewGenerator [] (rgb 9 9 9) ⟨[], none, 5, 0, 12, "", false⟩).Generate [97] =
        .error e) ∧
      (NewGenerator [] (rgb 9 9 9) ⟨[], none, 5, 0, 12, "", false⟩).Generate [97] =
        .error .divideByZero :=
  have h := empty_foreground_panics
    (NewGenerator [] (rgb 9 9 9) ⟨[], none, 5, 0, 12, "", false⟩) [97] rfl
  ⟨h.1, h.2 sha1.New 134
    [247, 228, 55, 250, 165, 167, 252, 225, 93, 29, 220, 185, 234, 234, 234, 55, 118, 103, 184]
    rfl sha1.sum_a⟩

/-- C8 fails on the code: with the default SHA-1 hash, a non-empty foreground list,
`IconSize = 200` and `BlockSize = 18`, cell 160 reads `digest[20]` of the 20-byte digest and
`Generate` stops with an index-out-of-range panic. -/
theorem large_block_size_panics :
    ((NewGenerator [rgb 1 2 3] (rgb 9 9 9) ⟨[], none, 18, 0, 200, "", false⟩).Generate
        [97]).map Prod.fst = .error .indexOutOfRange :=
  rfl

/-- C8 as amended: with the SHA-1 hash (in any state), a non-empty foreground list,
`IconSize > 0` and `0 < BlockSize ≤ 17`, `Generate` returns an image for every identity: no
index goes out of range and nothing is divided by zero. -/
theorem Generate_sha1_ok (g : Generator) (written identity : List Byte)
    (hh : g.Options.Hash = some ⟨sha1.sum, written⟩)
    (hb : 0 < g.Options.BlockSize) (hb' : g.Options.BlockSize ≤ 17)
    (hs : 0 < g.Options.IconSize) (hf : g.Foreground ≠ []) :
    ∃ img g', g.Generate identity = .ok (img, g') := by
  have hlen : g.Options.BlockSize *
      (Int.tdiv g.Options.BlockSize 2 + Int.tmod g.Options.BlockSize 2) ≤
      8 * (g.digestOf ⟨sha1.sum, written⟩ identity).length := by
    have : (g.digestOf ⟨sha1.sum, written⟩ identity).length = 20 := rfl
    rw [this]
    generalize g.Options.BlockSize = bs at hb hb'
    interval_cases bs <;> decide
  obtain ⟨img, -, -, himg, -⟩ := render_ok (g.afterHash ⟨sha1.sum, written⟩ identity)
    (g.digestOf ⟨sha1.sum, written⟩ identity) hb (le_of_lt hs) hf hlen
  exact ⟨img, g.afterHash ⟨sha1.sum, written⟩ identity, by
    rw [Generate_eq g _ identity hh, himg]
    rfl⟩

/-- C8 as amended, at `BlockSize = 17`, the default icon size and the identity `"a"`. -/
theorem Generate_sha1_ok_witness :
    ∃ img g', (NewGenerator [rgb 1 2 3] (rgb 9 9 9) ⟨[], none, 17, 0, 200, "", false⟩).Generate
      [97] = .ok (img, g') :=
  Generate_sha1_ok (NewGenerator [rgb 1 2 3] (rgb 9 9 9) ⟨[], none, 17, 0, 200, "", false⟩)
    [] [97] rfl (by decide) (by decide) (by decide) (by decide)

/-- C9: on the generator built by `NewDefaultGenerator`, after any sequence of earlier calls,
`Generate` returns for every identity: the earlier calls all return, and the image is a
200 x 200 paletted image (bounds `(0,0)-(200,200)`, stride 200, 40000 pixel indices) with a
two-entry palette. -/
theorem default_Generate_ok (ids : List (List Byte)) (identity : List Byte) :
    ∃ g img g', NewDefaultGenerator.calls ids = .ok g ∧ g.Generate identity = .ok (img, g') ∧
      img.Rect = ⟨⟨0, 0⟩, ⟨200, 200⟩⟩ ∧ img.Rect.Dx = 200 ∧ img.Rect.Dy = 200 ∧
      img.Stride = 200 ∧ img.Pix.length = 40000 ∧ img.Palette.length = 2 := by
  have step : ∀ (w s : List Byte), ∃ img,
      (defaultGeneratorAfter w).Generate s = .ok (img, defaultGeneratorAfter (w ++ s ++ [])) ∧
      img.Rect = ⟨⟨0, 0⟩, ⟨200, 200⟩⟩ ∧ img.Stride = 200 ∧ img.Pix.length = 40000 ∧
      img.Palette.length = 2 := by
    intro w s
    obtain ⟨img, d0, c, himg, -, -, hpal, hrect, hstride, hlen, -⟩ :=
      render_ok ((defaultGeneratorAfter w).afterHash ⟨sha1.sum, w⟩ s)
        ((defaultGeneratorAfter w).digestOf ⟨sha1.sum, w⟩ s)
        (show (1 : Int) ≤ 5 by decide) (show (0 : Int) ≤ 200 by decide)
        (show NewDefaultGenerator.Foreground ≠ [] by decide)
        (show (5 : Int) * (Int.tdiv 5 2 + Int.tmod 5 2) ≤ 8 * ((20 : Nat) : Int) by decide)
    refine ⟨img, ?_, hrect, hstride, ?_, ?_⟩
    · rw [Generate_eq (defaultGeneratorAfter w) ⟨sha1.sum, w⟩ s rfl, himg]
      rfl
    · have e : ((defaultGeneratorAfter w).afterHash ⟨sha1.sum, w⟩ s).Options.IconSize = 200 :=
        rfl
      rw [e] at hlen
      omega
    · rw [hpal]
      rfl
  have all : ∀ (l : List (List Byte)) (w : List Byte),
      ∃ w', (defaultGeneratorAfter w).calls l = .ok (defaultGeneratorAfter w') := by
    intro l
    induction l with
    | nil => exact fun w => ⟨w, rfl⟩
    | cons s l ih =>
      intro w
      obtain ⟨img, hg, -⟩ := step w s
      obtain ⟨w', hw'⟩ := ih (w ++ s ++ [])
      refine ⟨w', ?_⟩
      unfold Generator.calls at hw' ⊢
      rw [List.foldlM_cons, hg]
      exact hw'
  obtain ⟨w, hw⟩ := all ids []
  obtain ⟨img, hg, hrect, hstride, hlen, hpal⟩ := step w identity
  refine ⟨_, img, _, hw, hg, hrect, ?_, ?_, hstride, hlen, hpal⟩
  · rw [hrect]
    rfl
  · rw [hrect]
    rfl

/-- C10: `NewGenerator` replaces a zero `BlockSize` by 5, a zero `IconSize` by 200, an empty
`OutputFormat` by `"png"` and a missing hash by a fresh SHA-1, keeps each of these fields when
it is set, and carries `Salt`, `Padding`, `Inverted`, the foreground list and the background
over unchanged. -/
theorem NewGenerator_defaults (foreground : List NRGBA) (background : NRGBA)
    (options : GeneratorOptions) :
    ((options.BlockSize = 0 → (NewGenerator foreground background options).Options.BlockSize = 5) ∧
      (options.BlockSize ≠ 0 →
        (NewGenerator foreground background options).Options.BlockSize = options.BlockSize)) ∧
    ((options.IconSize = 0 → (NewGenerator foreground background options).Options.IconSize = 200) ∧
      (options.IconSize ≠ 0 →
        (NewGenerator foreground background options).Options.IconSize = options.IconSize)) ∧
    ((options.OutputFormat = "" →
        (NewGenerator foreground background options).Options.OutputFormat = "png") ∧
      (options.OutputFormat ≠ "" →
        (NewGenerator foreground background options).Options.OutputFormat =
          options.OutputFormat)) ∧
    ((options.Hash = none →
        (NewGenerator foreground background options).Options.Hash = some sha1.New) ∧
      (∀ h, options.Hash = some h →
        (NewGenerator foreground background options).Options.Hash = some h)) ∧
    (NewGenerator foreground background options).Options.Salt = options.Salt ∧
    (NewGenerator foreground background options).Options.Padding = options.Padding ∧
    (NewGenerator foreground background options).Options.Inverted = options.Inverted ∧
    (NewGenerator foreground background options).Foreground = foreground ∧
    (NewGenerator foreground background options).Background = background := by
  refine ⟨⟨?_, ?_⟩, ⟨?_, ?_⟩, ⟨?_, ?_⟩, ⟨?_, ?_⟩, rfl, rfl, rfl, rfl, rfl⟩
  · intro h
    simp [NewGenerator, h]
  · intro h
    simp [NewGenerator, h]
  · intro h
    simp [NewGenerator, h]
  · intro h
    simp [NewGenerator, h]
  · intro h
    simp [NewGenerator, h]
  · intro h
    simp [NewGenerator, h]
  · intro h
    simp [NewGenerator, h]
  · intro h hh
    simp [NewGenerator, hh]

/-- C10 at all-zero options, and at options with every field set. -/
theorem NewGenerator_defaults_witness :
    ((NewGenerator [rgb 1 2 3] (rgb 9 9 9) ⟨[], none, 0, 0, 0, "", false⟩).Options.BlockSize = 5 ∧
      (NewGenerator [rgb 1 2 3] (rgb 9 9 9) ⟨[], none, 0, 0, 0, "", false⟩).Options.IconSize = 200 ∧
      (NewGenerator [rgb 1 2 3] (rgb 9 9 9) ⟨[], none, 0, 0, 0, "", false⟩).Options.OutputFormat
        = "png" ∧
      (NewGenerator [rgb 1 2 3] (rgb 9 9 9) ⟨[], none, 0, 0, 0, "", false⟩).Options.Hash
        = some sha1.New) ∧
    ((NewGenerator [] (rgb 9 9 9) ⟨[1], some ⟨sha1.sum, [7]⟩, 4, 3, 100, "webp",
        true⟩).Options.BlockSize = 4 ∧
      (NewGenerator [] (rgb 9 9 9) ⟨[1], some ⟨sha1.sum, [7]⟩, 4, 3, 100, "webp",
        true⟩).Options.IconSize = 100 ∧
      (NewGenerator [] (rgb 9 9 9) ⟨[1], some ⟨sha1.sum, [7]⟩, 4, 3, 100, "webp",
        true⟩).Options.OutputFormat = "webp" ∧
      (NewGenerator [] (rgb 9 9 9) ⟨[1], some ⟨sha1.sum, [7]⟩, 4, 3, 100, "webp",
        true⟩).Options.Hash = some ⟨sha1.sum, [7]⟩) :=
  have h0 := NewGenerator_defaults [rgb 1 2 3] (rgb 9 9 9) ⟨[], none, 0, 0, 0, "", false⟩
  have h1 := NewGenerator_defaults [] (rgb 9 9 9)
    ⟨[1], some ⟨sha1.sum, [7]⟩, 4, 3, 100, "webp", true⟩
  ⟨⟨h0.1.1 rfl, h0.2.1.1 rfl, h0.2.2.1.1 rfl, h0.2.2.2.1.1 rfl⟩,
    ⟨h1.1.2 (by decide), h1.2.1.2 (by decide), h1.2.2.1.2 (by decide),
      h1.2.2.2.1.2 _ rfl⟩⟩

/-- C11 (the code breaks it): the generator built by `NewDefaultGenerator` has salt `""`, a
fresh SHA-1, `BlockSize = 5`, `Padding = 0`, `IconSize = 200`, `Inverted = false`, seven
foreground colours and the background `rgb 224 224 224`, but its `OutputFormat` is `"webp"`,
where `NewGenerator` on the same colours and all-zero options sets `"png"`: the two generators
differ, in that field only. -/
theorem NewDefaultGenerator_outputFormat :
    NewDefaultGenerator.Options.OutputFormat = "webp" ∧
    (NewGenerator NewDefaultGenerator.Foreground NewDefaultGenerator.Background
      ⟨[], none, 0, 0, 0, "", false⟩).Options.OutputFormat = "png" ∧
    NewDefaultGenerator ≠ NewGenerator NewDefaultGenerator.Foreground
      NewDefaultGenerator.Background ⟨[], none, 0, 0, 0, "", false⟩ ∧
    NewDefaultGenerator = (NewGenerator NewDefaultGenerator.Foreground
      NewDefaultGenerator.Background ⟨[], none, 0, 0, 0, "", false⟩).withPaddingFormat 0
        "webp" ∧
    NewDefaultGenerator.Options.Salt = [] ∧
    NewDefaultGenerator.Options.Hash = some sha1.New ∧
    NewDefaultGenerator.Options.BlockSize = 5 ∧
    NewDefaultGenerator.Options.Padding = 0 ∧
    NewDefaultGenerator.Options.IconSize = 200 ∧
    NewDefaultGenerator.Options.Inverted = false ∧
    NewDefaultGenerator.Foreground.length = 7 ∧
    NewDefaultGenerator.Background = rgb 224 224 224 := by
  refine ⟨rfl, rfl, ?_, rfl, rfl, rfl, rfl, rfl, rfl, rfl, rfl, rfl⟩
  intro h
  have h2 : NewDefaultGenerator.Options.OutputFormat =
      (NewGenerator NewDefaultGenerator.Foreground NewDefaultGenerator.Background
        ⟨[], none, 0, 0, 0, "", false⟩).Options.OutputFormat := by rw [← h]
  exact absurd h2 (by decide)

/-- C12: `hashData` feeds the hash with the identity bytes and then with the salt bytes and
returns the finalised sum: the digest is the hash of what was written before, followed by the
identity, followed by the salt, and the hash keeps all of it. On a hash that has absorbed
nothing the digest is the hash of `identity ++ salt`. -/
theorem hashData_digest (g : Generator) (h : Hash) (identity : List Byte)
    (hh : g.Options.Hash = some h) :
    ∃ g', g.hashData identity =
        .ok (h.algorithm (h.written ++ identity ++ g.Options.Salt), g') ∧
      g'.Options.Hash = some ⟨h.algorithm, h.written ++ identity ++ g.Options.Salt⟩ ∧
      (h.written = [] →
        g.hashData identity = .ok (h.algorithm (identity ++ g.Options.Salt), g')) := by
  refine ⟨g.afterHash h identity, ?_, rfl, ?_⟩
  · rw [hashData_eq g h identity hh]
    rfl
  · intro hw
    rw [hashData_eq g h identity hh]
    simp only [Generator.digestOf, Hash.Write, Hash.Sum, hw, List.nil_append]

/-- C12 at the salt `"b"` and the identity `"a"`: the digest is SHA-1 of `"ab"`, which is not
SHA-1 of `"ba"`. -/
theorem hashData_digest_witness :
    (∃ g', saltedGenerator.hashData [97] = .ok (sha1.sum [97, 98], g') ∧
      g'.Options.Hash = some ⟨sha1.sum, [97, 98]⟩) ∧
    sha1.sum [97, 98] ≠ sha1.sum [98, 97] := by
  obtain ⟨g', h1, h2, -⟩ := hashData_digest saltedGenerator sha1.New [97] rfl
  exact ⟨⟨g', h1, h2⟩, by decide⟩

/-- C18: `Generate` does not read `Options.Padding` or `Options.OutputFormat`: replacing them
changes neither the image (pixels, palette, bounds) nor whether the call fails; the generator
returned carries the replaced fields along. -/
theorem Generate_ignores_padding_format (g : Generator) (padding : Int)
    (outputFormat : String) (identity : List Byte) :
    (g.withPaddingFormat padding outputFormat).Generate identity =
      (g.Generate identity).map
        (fun r => (r.1, r.2.withPaddingFormat padding outputFormat)) := by
  cases hh : g.Options.Hash with
  | none =>
    have h1 : g.Generate identity = .error .nilDereference := by
      simp [Generator.Generate, Generator.hashData, hh, bind, Except.bind]
    have h2 : (g.withPaddingFormat padding outputFormat).Generate identity =
        .error .nilDereference := by
      have : (g.withPaddingFormat padding outputFormat).Options.Hash = none := hh
      simp [Generator.Generate, Generator.hashData, this, bind, Except.bind]
    rw [h1, h2]
    rfl
  | some h =>
    rw [Generate_eq g h identity hh,
      Generate_eq (g.withPaddingFormat padding outputFormat) h identity hh]
    have hr : ((g.withPaddingFormat padding outputFormat).afterHash h identity).render
        ((g.withPaddingFormat padding outputFormat).digestOf h identity) =
        (g.afterHash h identity).render (g.digestOf h identity) := rfl
    rw [hr]
    cases (g.afterHash h identity).render (g.digestOf h identity) <;> rfl

/-! ## The bit tested by `fill` -/

theorem and_one_beq_one (x : Nat) : (x &&& 1 == 1) = Nat.testBit x 0 := by
  simp only [Nat.and_one_is_mod, Nat.testBit_zero]
  rcases Nat.mod_two_eq_zero_or_one x with h | h <;> simp [h]

/-- The result of `fill` is the bit of `digest[n / 8]` whose number is the shift count
`8 - n % 8 + 1`; a byte has no bit 8 or 9. -/
theorem fill_testBit (g : Generator) {n : Int} {digest : List Byte} {b : Byte} (h0 : 0 ≤ n)
    (hb : digest.get? (n / 8).toNat = some b) :
    g.fill n digest = .ok (Nat.testBit b.val (8 - n % 8 + 1).toNat) := by
  have hlt : (n / 8).toNat < digest.length := by
    rcases Nat.lt_or_ge (n / 8).toNat digest.length with h | h
    · exact h
    · rw [List.get?_eq_none.mpr h] at hb
      cases hb
  rw [fill_ok g h0 (by omega)]
  have hd : Int.tdiv n 8 = n / 8 := Int.tdiv_eq_ediv h0 (by decide)
  have hm : Int.tmod n 8 = n % 8 := Int.tmod_eq_emod h0 (by decide)
  simp only [fillBit, hd, hm, hb]
  have hle : b.val >>> (8 - n % 8 + 1).toNat < 256 := by
    rw [Nat.shiftRight_eq_div_pow]
    exact lt_of_le_of_lt (Nat.div_le_self _ _) b.isLt
  rw [Nat.mod_eq_of_lt hle, and_one_beq_one, Nat.testBit_shiftRight, Nat.add_zero]

theorem testBit_byte_high (b : Byte) {k : Nat} (hk : 8 ≤ k) : Nat.testBit b.val k = false := by
  apply Nat.testBit_lt_two_pow
  exact lt_of_lt_of_le b.isLt (by
    have : (2 : Nat) ^ 8 ≤ 2 ^ k := Nat.pow_le_pow_right (by decide) hk
    simpa using this)

theorem testBit_div_four (x k : Nat) : Nat.testBit x (k + 2) = Nat.testBit (x / 4) k := by
  have h : x / 4 = x >>> 2 := by
    rw [Nat.shiftRight_eq_div_pow]
  rw [h, Nat.testBit_shiftRight, Nat.add_comm]

theorem fill_error (g : Generator) {n : Int} {digest : List Byte} (h0 : 0 ≤ n)
    (hlen : (digest.length : Int) ≤ n / 8) : g.fill n digest = .error .indexOutOfRange := by
  have hd : Int.tdiv n 8 = n / 8 := Int.tdiv_eq_ediv h0 (by decide)
  have hn : digest.get? (n / 8).toNat = none := List.get?_eq_none.mpr (by omega)
  simp only [Generator.fill, index, hd, hn]
  rw [if_neg (by omega)]
  rfl

/-- Only bits 2..7 of each byte, and the length of the digest, matter to `fill`. -/
theorem fill_congr (g : Generator) {n : Int} {d1 d2 : List Byte} (h0 : 0 ≤ n)
    (h : d1.map (fun b => b.val / 4) = d2.map (fun b => b.val / 4)) :
    g.fill n d1 = g.fill n d2 := by
  have hlen : d1.length = d2.length := by
    have := congrArg List.length h
    simpa using this
  have hget := congrArg (fun l => l.get? (n / 8).toNat) h
  simp only [List.get?_eq_getElem?, List.getElem?_map] at hget
  rcases Nat.lt_or_ge (n / 8).toNat d1.length with hlt | hge
  · have e1 : d1.get? (n / 8).toNat = some (d1.get ⟨_, hlt⟩) := List.get?_eq_get hlt
    have e2 : d2.get? (n / 8).toNat = some (d2.get ⟨_, hlen ▸ hlt⟩) :=
      List.get?_eq_get (hlen ▸ hlt)
    rw [fill_testBit g h0 e1, fill_testBit g h0 e2]
    simp only [List.get?_eq_getElem?] at e1 e2
    rw [e1, e2] at hget
    simp only [Option.map_some', Option.some.injEq] at hget
    obtain ⟨k, hk⟩ : ∃ k : Nat, (8 - n % 8 + 1).toNat = k + 2 := ⟨(7 - n % 8).toNat, by omega⟩
    rw [hk, testBit_div_four, testBit_div_four, hget]
  · rw [fill_error g h0 (by omega), fill_error g h0 (by omega)]

theorem foldlM_congr {α β : Type} (f1 f2 : β → α → Except Panic β) (l : List α) :
    ∀ b, (∀ a ∈ l, ∀ r, f1 r a = f2 r a) → l.foldlM f1 b = l.foldlM f2 b := by
  induction l with
  | nil => intro b _; rfl
  | cons a l ih =>
    intro b h
    rw [List.foldlM_cons, List.foldlM_cons, h a (List.mem_cons_self _ _) b]
    cases f2 b a with
    | error e => rfl
    | ok c => exact ih c (fun a' ha' => h a' (List.mem_cons_of_mem _ ha'))

theorem makeMatrix_congr (g : Generator) {d1 d2 : List Byte}
    (h : d1.map (fun b => b.val / 4) = d2.map (fun b => b.val / 4)) :
    g.makeMatrix d1 = g.makeMatrix d2 := by
  simp only [Generator.makeMatrix, bind]
  cases goDiv g.Options.IconSize (g.Options.BlockSize + 1) with
  | error e => rfl
  | ok width =>
    simp only [Except.bind]
    apply foldlM_congr
    intro i hi r
    rw [mem_loopRange] at hi
    simp only [Generator.makeMatrixStep, fill_congr g hi.1 h]

/-- C14 fails on the code: for cell 0 the shift count is 9 and for cell 1 it is 8, so `fill`
returns false whatever the byte, although bit `(8 - 0 + 1) mod 8 = 1` of the byte 2 and bit
`(8 - 1 + 1) mod 8 = 0` of the byte 1 are set. -/
theorem fill_not_bit_mod_eight :
    sampleGenerator.fill 0 [2] = .ok false ∧
    Nat.testBit (2 : Byte).val ((8 - 0 % 8 + 1) % 8) = true ∧
    sampleGenerator.fill 1 [1] = .ok false ∧
    Nat.testBit (1 : Byte).val ((8 - 1 % 8 + 1) % 8) = true :=
  ⟨rfl, rfl, rfl, rfl⟩

/-- C14 as amended: for every cell index `i ≥ 0` and every digest with more than `i / 8`
bytes, `fill i digest` is true iff bit number `8 - (i mod 8) + 1`, not reduced modulo 8, of the
byte `digest[i / 8]` is 1. For `i mod 8` in 2..7 this is bit `(8 - (i mod 8) + 1) mod 8`; for
`i mod 8` in 0..1 the number is 9 or 8, a byte has no such bit, and `fill` is false. -/
theorem fill_bit_spec (g : Generator) (i : Int) (digest : List Byte) (h0 : 0 ≤ i)
    (hlen : i / 8 < digest.length) :
    ∃ b, digest.get? (i / 8).toNat = some b ∧
      g.fill i digest = .ok (Nat.testBit b.val (8 - i % 8 + 1).toNat) ∧
      (2 ≤ i % 8 → (8 - i % 8 + 1) % 8 = 8 - i % 8 + 1) ∧
      (i % 8 < 2 → Nat.testBit b.val (8 - i % 8 + 1).toNat = false) := by
  have hlt : (i / 8).toNat < digest.length := by omega
  refine ⟨digest.get ⟨_, hlt⟩, List.get?_eq_get hlt,
    fill_testBit g h0 (List.get?_eq_get hlt), fun h => by omega,
    fun h => testBit_byte_high _ (by omega)⟩

/-- C14 as amended, at cell 2 (bit 7 of the first byte, set in 128) and at cell 8 (shift
count 9, false even for the byte 255). -/
theorem fill_bit_spec_witness :
    (∃ b, ([128] : List Byte).get? ((2 : Int) / 8).toNat = some b ∧
      sampleGenerator.fill 2 [128] = .ok (Nat.testBit b.val (8 - (2 : Int) % 8 + 1).toNat) ∧
      (2 ≤ (2 : Int) % 8 → (8 - (2 : Int) % 8 + 1) % 8 = 8 - (2 : Int) % 8 + 1) ∧
      ((2 : Int) % 8 < 2 → Nat.testBit b.val (8 - (2 : Int) % 8 + 1).toNat = false)) ∧
    sampleGenerator.fill 2 [128] = .ok true ∧
    sampleGenerator.fill 8 [255, 255] = .ok false :=
  ⟨fill_bit_spec sampleGenerator 2 [128] (by decide) (by decide), rfl, rfl⟩

/-- C20: `fill` shifts the byte right by `9 - (n mod 8)`: it is false whenever `n mod 8` is 0
or 1, and for `n mod 8` in 2..7 it is bit `9 - (n mod 8)`, a bit between 2 and 7, of
`digest[n / 8]`. So `makeMatrix` gives the same result, or fails alike, on two digests that
agree on bits 2..7 of every byte: bits 0 and 1 have no influence. -/
theorem fill_dead_bits (g : Generator) :
    (∀ (n : Int) (digest : List Byte), 0 ≤ n → n / 8 < digest.length →
      n % 8 = 0 ∨ n % 8 = 1 → g.fill n digest = .ok false) ∧
    (∀ (n : Int) (digest : List Byte) (b : Byte), 0 ≤ n →
      digest.get? (n / 8).toNat = some b → 2 ≤ n % 8 →
      g.fill n digest = .ok (Nat.testBit b.val (9 - n % 8).toNat) ∧
        2 ≤ 9 - n % 8 ∧ 9 - n % 8 ≤ 7) ∧
    (∀ d1 d2 : List Byte, d1.map (fun b => b.val / 4) = d2.map (fun b => b.val / 4) →
      g.makeMatrix d1 = g.makeMatrix d2) := by
  refine ⟨?_, ?_, fun d1 d2 h => makeMatrix_congr g h⟩
  · intro n digest h0 hlen hn
    have hlt : (n / 8).toNat < digest.length := by omega
    rw [fill_testBit g h0 (List.get?_eq_get hlt), testBit_byte_high _ (by omega)]
  · intro n digest b h0 hb hn
    refine ⟨?_, by omega, by omega⟩
    rw [fill_testBit g h0 hb]
    have e : 8 - n % 8 + 1 = 9 - n % 8 := by ring
    rw [e]

/-- C20 at the sample generator: cell 8 is dead even under the byte 255, cell 2 reads bit 7,
and the digest of `"a"` with bits 0 and 1 of every byte cleared gives the same rectangles. -/
theorem fill_dead_bits_witness :
    sampleGenerator.fill 8 [255, 255] = .ok false ∧
    (sampleGenerator.fill 2 [128] = .ok (Nat.testBit (128 : Byte).val (9 - (2 : Int) % 8).toNat) ∧
      2 ≤ 9 - (2 : Int) % 8 ∧ 9 - (2 : Int) % 8 ≤ 7) ∧
    sampleGenerator.makeMatrix (sha1.sum [97]) =
      sampleGenerator.makeMatrix
        ((sha1.sum [97]).map (fun b => (⟨b.val / 4 * 4, by omega⟩ : Byte))) :=
  have h := fill_dead_bits sampleGenerator
  ⟨h.1 8 [255, 255] (by decide) (by decide) (by decide),
    h.2.1 2 [128] 128 (by decide) rfl (by decide),
    h.2.2 _ _ (by rw [sha1.sum_a]; decide)⟩

/-! ## When `makeMatrix` returns -/

theorem foldlM_error {α β : Type} (step : β → α → Except Panic β) (l : List α) :
    ∀ b, (∃ a ∈ l, ∀ r, ∃ e, step r a = .error e) → ∃ e, l.foldlM step b = .error e := by
  induction l with
  | nil => rintro b ⟨a, ha, -⟩; cases ha
  | cons a' l ih =>
    rintro b ⟨a, ha, herr⟩
    rw [List.foldlM_cons]
    cases hs : step b a' with
    | error e => exact ⟨e, rfl⟩
    | ok c =>
      rcases List.mem_cons.mp ha with rfl | hmem
      · obtain ⟨e, he⟩ := herr b
        rw [he] at hs
        cases hs
      · exact ih c ⟨a, hmem, herr⟩

theorem makeMatrixStep_error (g : Generator) {digest : List Byte} (blockSize width cols
    padding : Int) (res : List Rectangle) {i : Int} (h0 : 0 ≤ i)
    (hlen : (digest.length : Int) ≤ i / 8) :
    g.makeMatrixStep digest blockSize width cols padding res i = .error .indexOutOfRange := by
  simp only [Generator.makeMatrixStep, fill_error g h0 hlen]
  rfl

/-- With `BlockSize ≥ 1`, `makeMatrix` returns only if the byte of every cell the loop
visits is in the digest. -/
theorem makeMatrix_ok_length {g : Generator} {digest : List Byte} {rects : List Rectangle}
    (hb : 1 ≤ g.Options.BlockSize) (h : g.makeMatrix digest = .ok rects) :
    int64 (g.Options.BlockSize *
      (Int.tdiv g.Options.BlockSize 2 + Int.tmod g.Options.BlockSize 2)) ≤
        8 * digest.length := by
  by_contra hlt
  have hlt' : 8 * (digest.length : Int) < int64 (g.Options.BlockSize *
      (Int.tdiv g.Options.BlockSize 2 + Int.tmod g.Options.BlockSize 2)) := by omega
  simp only [Generator.makeMatrix, goDiv] at h
  rw [if_neg (by omega)] at h
  simp only [bind, Except.bind] at h
  obtain ⟨e, he⟩ := foldlM_error
    (g.makeMatrixStep digest g.Options.BlockSize
      (Int.tdiv g.Options.IconSize (g.Options.BlockSize + 1))
      (Int.tdiv g.Options.BlockSize 2 + Int.tmod g.Options.BlockSize 2)
      (Int.tdiv (Int.tdiv g.Options.IconSize (g.Options.BlockSize + 1)) 2))
    (loopRange 0 (int64 (g.Options.BlockSize *
      (Int.tdiv g.Options.BlockSize 2 + Int.tmod g.Options.BlockSize 2)))) []
    ⟨8 * (digest.length : Int), mem_loopRange.mpr ⟨by omega, hlt'⟩,
      fun r => ⟨_, makeMatrixStep_error g _ _ _ _ r (by omega) (by omega)⟩⟩
  rw [he] at h
  cases h

theorem makeMatrix_eq_matrixRects {g : Generator} {digest : List Byte}
    {rects : List Rectangle} (hb : 1 ≤ g.Options.BlockSize)
    (h : g.makeMatrix digest = .ok rects) :
    rects = matrixRects g.Options.BlockSize g.Options.IconSize digest := by
  rw [makeMatrix_ok_wrapped g digest hb (makeMatrix_ok_length hb h)] at h
  exact (Except.ok.inj h).symm

/-! ## The reference definition -/

theorem filter_flatMap {α β : Type} (p : α → Bool) (f : α → List β) (l : List α) :
    (l.filter p).flatMap f = l.flatMap (fun a => if p a then f a else []) := by
  induction l with
  | nil => rfl
  | cons a l ih =>
    by_cases hp : p a
    · simp [List.filter_cons, hp, List.flatMap_cons, ih]
    · simp [List.filter_cons, hp, List.flatMap_cons, ih]

theorem flatMap_congr {α β : Type} (f1 f2 : α → List β) (l : List α)
    (h : ∀ a ∈ l, f1 a = f2 a) : l.flatMap f1 = l.flatMap f2 := by
  induction l with
  | nil => rfl
  | cons a l ih =>
    rw [List.flatMap_cons, List.flatMap_cons, h a (List.mem_cons_self _ _),
      ih (fun a' ha' => h a' (List.mem_cons_of_mem _ ha'))]

theorem gridCols_eq {bs : Int} (hb : 1 ≤ bs) :
    Int.tdiv bs 2 + Int.tmod bs 2 = (bs + 1) / 2 := by
  rw [Int.tdiv_eq_ediv (by omega) (by decide), Int.tmod_eq_emod (by omega) (by decide)]
  omega

theorem cellRects_eq_referenceCell {bs i : Int} (w pad : Int) (hb : 1 ≤ bs) (hi0 : 0 ≤ i) :
    cellRects bs w (Int.tdiv bs 2 + Int.tmod bs 2) pad i =
      referenceCell bs w pad ((bs + 1) / 2) i := by
  have hc : Int.tdiv i bs = i / bs := Int.tdiv_eq_ediv hi0 (by omega)
  have hm2 : Int.tmod bs 2 = bs % 2 := Int.tmod_eq_emod (by omega) (by decide)
  rw [gridCols_eq hb]
  simp only [cellRects, referenceCell, rectAt, hc, hm2]
  have e : pad + i / bs * w + w + w = pad + i / bs * w + 2 * w := by ring
  split_ifs <;> simp_all

/-- The 64-bit product that bounds the loop is exact below `2 ^ 63`. -/
theorem int64_cells_eq {bs : Int} (hb : 1 ≤ bs) (hwrap : bs * ((bs + 1) / 2) < 2 ^ 63) :
    int64 (bs * (Int.tdiv bs 2 + Int.tmod bs 2)) = bs * ((bs + 1) / 2) := by
  have hn := cells_nonneg hb
  rw [gridCols_eq hb] at hn ⊢
  exact int64_eq (by omega) (by omega)

theorem matrixRects_eq_referenceMatrix (g : Generator) (digest : List Byte)
    (hb : 1 ≤ g.Options.BlockSize)
    (hwrap : g.Options.BlockSize * ((g.Options.BlockSize + 1) / 2) < 2 ^ 63)
    (hlen : g.Options.BlockSize *
      (Int.tdiv g.Options.BlockSize 2 + Int.tmod g.Options.BlockSize 2) ≤ 8 * digest.length) :
    matrixRects g.Options.BlockSize g.Options.IconSize digest = referenceMatrix g digest := by
  simp only [matrixRects, referenceMatrix, filter_flatMap]
  have hl : loopRange 0 (int64 (g.Options.BlockSize *
      (Int.tdiv g.Options.BlockSize 2 + Int.tmod g.Options.BlockSize 2))) =
      List.map (fun (k : Nat) => (k : Int))
        (List.range (g.Options.BlockSize * ((g.Options.BlockSize + 1) / 2)).toNat) := by
    rw [int64_cells_eq hb hwrap]
    simp [loopRange]
  rw [← hl]
  apply flatMap_congr
  intro i hi
  rw [mem_loopRange] at hi
  have hle := int64_cells_le hb
  have hf : g.filled digest i = fillBit i digest := by
    simp only [Generator.filled, fill_ok g hi.1 (by omega : i < 8 * (digest.length : Int))]
  rw [hf, cellRects_eq_referenceCell _ _ hb hi.1]

theorem ceil_half (n : Int) : ⌈(n : ℚ) / 2⌉ = (n + 1) / 2 := by
  rw [Int.ceil_eq_iff]
  have h1 : 2 * ((n + 1) / 2) ≤ n + 1 := by omega
  have h2 : n ≤ 2 * ((n + 1) / 2) := by omega
  have h1' : (2 : ℚ) * (((n + 1) / 2 : Int) : ℚ) ≤ (n : ℚ) + 1 := by exact_mod_cast h1
  have h2' : (n : ℚ) ≤ 2 * (((n + 1) / 2 : Int) : ℚ) := by exact_mod_cast h2
  constructor <;> linarith

theorem ceil_eighth (n : Int) : ⌈(n : ℚ) / 8⌉ = (n + 7) / 8 := by
  rw [Int.ceil_eq_iff]
  have h1 : 8 * ((n + 7) / 8) ≤ n + 7 := by omega
  have h2 : n ≤ 8 * ((n + 7) / 8) := by omega
  have h1' : (8 : ℚ) * (((n + 7) / 8 : Int) : ℚ) ≤ (n : ℚ) + 7 := by exact_mod_cast h1
  have h2' : (n : ℚ) ≤ 8 * (((n + 7) / 8 : Int) : ℚ) := by exact_mod_cast h2
  constructor <;> linarith

/-- C15 fails on the code: at `BlockSize = 2^32` the product `blockSize * cols` is `2^63`,
which a Go `int` holds as `-2^63`, so the loop does not run and `makeMatrix` returns the empty
list on the SHA-1 digest of `"a"`, whereas the reference list has the rectangle of cell 2. -/
theorem makeMatrix_not_reference :
    wrapGenerator.Options.BlockSize = 2 ^ 32 ∧
    int64 (wrapGenerator.Options.BlockSize * gridCols wrapGenerator.Options.BlockSize) =
      -2 ^ 63 ∧
    wrapGenerator.makeMatrix (sha1.sum [97]) = .ok [] ∧
    rectAt 0 0 0 0 ∈ referenceMatrix wrapGenerator (sha1.sum [97]) ∧
    referenceMatrix wrapGenerator (sha1.sum [97]) ≠ [] := by
  have hmem : rectAt 0 0 0 0 ∈ referenceMatrix wrapGenerator (sha1.sum [97]) := by
    simp only [referenceMatrix, List.mem_flatMap, List.mem_filter, List.mem_map,
      List.mem_range]
    exact ⟨2, ⟨⟨2, by decide, rfl⟩, by decide⟩, by decide⟩
  exact ⟨by decide, by decide, rfl, hmem, List.ne_nil_of_mem hmem⟩

/-- C15 as amended: for `BlockSize ≥ 1` with `BlockSize * ceil(BlockSize / 2) < 2^63`, so that
the 64-bit product does not wrap, the list `makeMatrix` returns is the reference list: with
`cols` the half of `BlockSize` rounded up, `cellCount = BlockSize * cols`,
`width = IconSize / (BlockSize + 1)` and `pad = width / 2`, the concatenation over the filled
cells `i = 0 .. cellCount - 1`, in increasing order, of the rectangle at
`(pad + c * width, pad + c * width)` with `c = i / BlockSize`, widened to `2 * width` when
`BlockSize` is even and `c = cols - 1`, followed when `c < cols - 1` by the rectangle at column
`BlockSize - c - 1` of the same row. `makeMatrix` returns it whenever the digest is long
enough. A cell of the last column yields one rectangle, any other cell two. -/
theorem makeMatrix_reference (g : Generator) (digest : List Byte)
    (hb : 1 ≤ g.Options.BlockSize)
    (hwrap : g.Options.BlockSize * ((g.Options.BlockSize + 1) / 2) < 2 ^ 63) :
    (g.Options.BlockSize * ((g.Options.BlockSize + 1) / 2) ≤ 8 * digest.length →
      g.makeMatrix digest = .ok (referenceMatrix g digest)) ∧
    (∀ rects, g.makeMatrix digest = .ok rects → rects = referenceMatrix g digest) ∧
    (g.Options.BlockSize + 1) / 2 = ⌈(g.Options.BlockSize : ℚ) / 2⌉ ∧
    ∀ width pad i, 0 ≤ i → i < g.Options.BlockSize * ((g.Options.BlockSize + 1) / 2) →
      (i / g.Options.BlockSize = (g.Options.BlockSize + 1) / 2 - 1 →
        (referenceCell g.Options.BlockSize width pad ((g.Options.BlockSize + 1) / 2) i).length
          = 1) ∧
      (i / g.Options.BlockSize ≠ (g.Options.BlockSize + 1) / 2 - 1 →
        (referenceCell g.Options.BlockSize width pad ((g.Options.BlockSize + 1) / 2) i).length
          = 2) := by
  refine ⟨?_, ?_, (ceil_half _).symm, ?_⟩
  · intro hlen
    rw [← gridCols_eq hb] at hlen
    rw [makeMatrix_ok g digest hb hlen, matrixRects_eq_referenceMatrix g digest hb hwrap hlen]
  · intro rects h
    have hlen := makeMatrix_ok_length hb h
    rw [int64_cells_eq hb hwrap, ← gridCols_eq hb] at hlen
    rw [makeMatrix_eq_matrixRects hb h,
      matrixRects_eq_referenceMatrix g digest hb hwrap hlen]
  · intro width pad i hi0 hi
    have hclt : i / g.Options.BlockSize < (g.Options.BlockSize + 1) / 2 := by
      apply Int.ediv_lt_of_lt_mul (by omega)
      rw [mul_comm]
      exact hi
    constructor
    · intro hc
      have hnot : ¬ i / g.Options.BlockSize < (g.Options.BlockSize + 1) / 2 - 1 := by omega
      simp only [referenceCell, if_neg hnot, List.length_cons, List.length_nil]
    · intro hc
      have hlt : i / g.Options.BlockSize < (g.Options.BlockSize + 1) / 2 - 1 := by omega
      simp only [referenceCell, if_pos hlt, List.length_cons, List.length_nil]

/-- C15 at the grid of 4 cells on a 100-pixel canvas and the SHA-1 digest of `"a"`. -/
theorem makeMatrix_reference_witness :
    fourGenerator.makeMatrix (sha1.sum [97]) = .ok (referenceMatrix fourGenerator (sha1.sum [97])) ∧
    referenceMatrix fourGenerator (sha1.sum [97]) =
      [rectAt 10 10 20 20, rectAt 70 10 20 20, rectAt 30 30 40 20] ∧
    (referenceCell 4 20 10 2 1).length = 2 ∧ (referenceCell 4 20 10 2 5).length = 1 :=
  have h := makeMatrix_reference fourGenerator (sha1.sum [97]) (by decide) (by decide)
  ⟨h.1 (by decide), by decide,
    (h.2.2.2 20 10 1 (by decide) (by decide)).2 (by decide),
    (h.2.2.2 20 10 5 (by decide) (by decide)).1 (by decide)⟩

/-- C16 fails on the code: for `BlockSize = 11` the bound `ceil((11^2 / 2) / 8)` is 8, yet
on a digest of 8 bytes cell 64 (of 66) reads `digest[8]` and `makeMatrix` stops with an
index-out-of-range panic. The bound is not necessary either: for `BlockSize = 2^32` it is
`2^60` bytes, but the 64-bit product of the loop bound is negative, no byte is read, and
`makeMatrix` returns on the 20 bytes of a SHA-1 digest. -/
theorem digest_bound_too_small :
    elevenGenerator.Options.BlockSize = 11 ∧
    ⌈((11 : ℚ) ^ 2 / 2) / 8⌉ ≤ ((List.replicate 8 (0 : Byte)).length : Int) ∧
    elevenGenerator.fill 64 (List.replicate 8 0) = .error .indexOutOfRange ∧
    elevenGenerator.makeMatrix (List.replicate 8 0) = .error .indexOutOfRange ∧
    wrapGenerator.Options.BlockSize = 2 ^ 32 ∧
    ((sha1.sum [97]).length : Int) < ⌈(((2 : ℚ) ^ 32) ^ 2 / 2) / 8⌉ ∧
    wrapGenerator.makeMatrix (sha1.sum [97]) = .ok [] := by
  refine ⟨rfl, ?_, rfl, rfl, by decide, ?_, rfl⟩
  · rw [Int.ceil_le]
    norm_num
  · rw [Int.lt_ceil]
    norm_num [sha1.sum_length]

/-- C16 as amended: for `BlockSize ≥ 1` with `BlockSize * ceil(BlockSize / 2) < 2^63`, so
that the 64-bit product does not wrap, the digest reads of `makeMatrix` are all in range, and
`makeMatrix` returns, exactly when the digest has at least
`ceil(BlockSize * ceil(BlockSize / 2) / 8)` bytes. -/
theorem digest_bound (g : Generator) (digest : List Byte) (hb : 1 ≤ g.Options.BlockSize)
    (hwrap : g.Options.BlockSize * ⌈(g.Options.BlockSize : ℚ) / 2⌉ < 2 ^ 63) :
    ((∃ rects, g.makeMatrix digest = .ok rects) ↔
      ⌈((g.Options.BlockSize * ⌈(g.Options.BlockSize : ℚ) / 2⌉ : Int) : ℚ) / 8⌉ ≤
        (digest.length : Int)) ∧
    ((∀ i, 0 ≤ i → i < g.Options.BlockSize * ⌈(g.Options.BlockSize : ℚ) / 2⌉ →
        ∃ b, g.fill i digest = .ok b) ↔
      ⌈((g.Options.BlockSize * ⌈(g.Options.BlockSize : ℚ) / 2⌉ : Int) : ℚ) / 8⌉ ≤
        (digest.length : Int)) := by
  rw [ceil_half] at hwrap
  rw [ceil_half, ceil_eighth]
  have hcols := gridCols_eq hb
  constructor
  · constructor
    · rintro ⟨rects, h⟩
      have := makeMatrix_ok_length hb h
      rw [int64_cells_eq hb hwrap] at this
      omega
    · intro h
      exact ⟨_, makeMatrix_ok g digest hb (by rw [hcols]; omega)⟩
  · constructor
    · intro h
      by_contra hlt
      obtain ⟨b, hb'⟩ := h (8 * (digest.length : Int)) (by omega) (by omega)
      rw [fill_error g (by omega) (by omega)] at hb'
      cases hb'
    · intro h i hi0 hi
      exact ⟨_, fill_ok g hi0 (by omega)⟩

/-- C16 as amended, at `BlockSize = 11`: 66 cells need 9 bytes, and with 9 bytes `makeMatrix`
returns. -/
theorem digest_bound_witness :
    ((∃ rects, elevenGenerator.makeMatrix (List.replicate 9 0) = .ok rects) ↔
      ⌈((elevenGenerator.Options.BlockSize *
        ⌈(elevenGenerator.Options.BlockSize : ℚ) / 2⌉ : Int) : ℚ) / 8⌉ ≤
        ((List.replicate 9 (0 : Byte)).length : Int)) ∧
    elevenGenerator.makeMatrix (List.replicate 9 0) = .ok [] :=
  ⟨(digest_bound elevenGenerator (List.replicate 9 0) (by decide) (by
    rw [ceil_half]
    decide)).1, rfl⟩

/-- Every rectangle of a cell lies in the square the grid occupies. -/
theorem cellRects_span {bs size i : Int} (hb : 1 ≤ bs) (hs : 0 ≤ size) (hi0 : 0 ≤ i)
    (hi : i < bs * (Int.tdiv bs 2 + Int.tmod bs 2)) :
    ∀ r ∈ cellRects bs (Int.tdiv size (bs + 1)) (Int.tdiv bs 2 + Int.tmod bs 2)
        (Int.tdiv (Int.tdiv size (bs + 1)) 2) i,
      (gridPadding bs size ≤ r.Min.X ∧
        r.Max.X ≤ gridPadding bs size + bs * gridWidth bs size) ∧
      (gridPadding bs size ≤ r.Min.Y ∧
        r.Max.Y ≤ gridPadding bs size + bs * gridWidth bs size) := by
  obtain ⟨w, pad, cols, c, hw, hp, hcols, hc, hw0, hpad, hcv, hm2, hc0, hclt, hsz, hcw0, hcw,
    hcb, hev, hmir⟩ := grid_facts hb hs hi0 hi
  simp only [gridPadding, gridWidth]
  rw [hw, hp, hcols]
  intro r hr
  simp only [cellRects, hc, hm2] at hr
  split_ifs at hr with h1 h2 h3
  all_goals simp only [List.mem_cons, List.mem_singleton, List.not_mem_nil, or_false] at hr
  · omega
  · rcases hr with rfl | rfl
    · simp only
      omega
    · simp only [hmir]
      omega
  · subst hr
    simp only
    have := hev h3.1
    have : c * w + w = cols * w := by
      have : c = cols - 1 := h3.2
      subst this
      ring
    omega
  · subst hr
    simp only
    omega

theorem matrixRects_span {bs size : Int} (digest : List Byte) (hb : 1 ≤ bs) (hs : 0 ≤ size) :
    ∀ r ∈ matrixRects bs size digest,
      (gridPadding bs size ≤ r.Min.X ∧
        r.Max.X ≤ gridPadding bs size + bs * gridWidth bs size) ∧
      (gridPadding bs size ≤ r.Min.Y ∧
        r.Max.Y ≤ gridPadding bs size + bs * gridWidth bs size) := by
  intro r hr
  simp only [matrixRects, List.mem_flatMap, mem_loopRange] at hr
  obtain ⟨i, ⟨hi0, hi⟩, hr⟩ := hr
  have hi := lt_of_lt_of_le hi (int64_cells_le hb)
  split_ifs at hr
  · exact cellRects_span hb hs hi0 hi r hr
  · simp at hr

/-- C13: for `BlockSize ≥ 1` and `IconSize ≥ 1`, every rectangle `makeMatrix` returns has
`0 ≤ Min.X ≤ Max.X ≤ IconSize` and `0 ≤ Min.Y ≤ Max.Y ≤ IconSize`; so every pixel `(x, y)` of
such a rectangle, the pixels `Generate` paints, lies in `[0, IconSize) x [0, IconSize)`, and
the offset `y * Stride + x` written to is within the `IconSize * IconSize` buffer of the
canvas and is the offset of column `x` of row `y`. -/
theorem makeMatrix_on_canvas (g : Generator) (digest : List Byte) (rects : List Rectangle)
    (hb : 1 ≤ g.Options.BlockSize) (hs : 1 ≤ g.Options.IconSize)
    (h : g.makeMatrix digest = .ok rects) :
    (∀ fg bg, (g.makePalette fg bg).Stride = g.Options.IconSize ∧
      ((g.makePalette fg bg).Pix.length : Int) = g.Options.IconSize * g.Options.IconSize) ∧
    ∀ r ∈ rects,
      (0 ≤ r.Min.X ∧ r.Min.X ≤ r.Max.X ∧ r.Max.X ≤ g.Options.IconSize) ∧
      (0 ≤ r.Min.Y ∧ r.Min.Y ≤ r.Max.Y ∧ r.Max.Y ≤ g.Options.IconSize) ∧
      ∀ x y, (Point.mk x y).In r →
        (0 ≤ x ∧ x < g.Options.IconSize) ∧ (0 ≤ y ∧ y < g.Options.IconSize) ∧
        (0 ≤ y * g.Options.IconSize + x ∧
          y * g.Options.IconSize + x < g.Options.IconSize * g.Options.IconSize) ∧
        (y * g.Options.IconSize + x) / g.Options.IconSize = y ∧
        (y * g.Options.IconSize + x) % g.Options.IconSize = x := by
  have hs0 : 0 ≤ g.Options.IconSize := by omega
  constructor
  · intro fg bg
    rw [makePalette_eq g fg bg hs0]
    refine ⟨rfl, ?_⟩
    have := mul_nonneg hs0 hs0
    simp only [List.length_replicate]
    omega
  · intro r hr
    rw [makeMatrix_eq_matrixRects hb h] at hr
    obtain ⟨hX, hY⟩ := matrixRects_bounds digest hb hs0 r hr
    refine ⟨hX, hY, ?_⟩
    intro x y hin
    simp only [Point.In] at hin
    have hx0 : 0 ≤ x := by omega
    have hx : x < g.Options.IconSize := by omega
    have hy0 : 0 ≤ y := by omega
    have hy : y < g.Options.IconSize := by omega
    refine ⟨⟨hx0, hx⟩, ⟨hy0, hy⟩, offset_lt hx0 hx hy0 hy, ?_, ?_⟩
    · rw [add_comm, Int.add_mul_ediv_right _ _ (by omega), Int.ediv_eq_zero_of_lt hx0 hx]
      omega
    · rw [add_comm, Int.add_mul_emod_self, Int.emod_eq_of_lt hx0 hx]

/-- C13 at `BlockSize = 4`, `IconSize = 100` and the SHA-1 digest of `"a"`: the three
rectangles returned lie within `[0, 100] x [0, 100]`. -/
theorem makeMatrix_on_canvas_witness :
    fourGenerator.makeMatrix (sha1.sum [97]) =
      .ok [rectAt 10 10 20 20, rectAt 70 10 20 20, rectAt 30 30 40 20] ∧
    ∀ r ∈ [rectAt 10 10 20 20, rectAt 70 10 20 20, rectAt 30 30 40 20],
      (0 ≤ r.Min.X ∧ r.Min.X ≤ r.Max.X ∧ r.Max.X ≤ 100) ∧
      (0 ≤ r.Min.Y ∧ r.Min.Y ≤ r.Max.Y ∧ r.Max.Y ≤ 100) ∧
      ∀ x y, (Point.mk x y).In r →
        (0 ≤ x ∧ x < 100) ∧ (0 ≤ y ∧ y < 100) ∧
        (0 ≤ y * 100 + x ∧ y * 100 + x < 100 * 100) ∧
        (y * 100 + x) / 100 = y ∧ (y * 100 + x) % 100 = x :=
  ⟨rfl, (makeMatrix_on_canvas fourGenerator (sha1.sum [97]) _ (by decide) (by decide) rfl).2⟩

/-- C19 fails on the code: on the default generator (`BlockSize = 5`, `IconSize = 200`) the
cell side is 33 and the leading offset 16, but 19 pixels are left after the grid. -/
theorem grid_not_centred :
    NewDefaultGenerator.Options.BlockSize = 5 ∧ NewDefaultGenerator.Options.IconSize = 200 ∧
    gridWidth 5 200 = 33 ∧ gridPadding 5 200 = 16 ∧
    200 - (gridPadding 5 200 + 5 * gridWidth 5 200) = 19 ∧
    gridPadding 5 200 ≠ 200 - (gridPadding 5 200 + 5 * gridWidth 5 200) := by
  decide

/-- C19 as amended: for `BlockSize ≥ 1` and `IconSize ≥ 1`, with
`width = IconSize / (BlockSize + 1)` and `pad = width / 2`, every rectangle `makeMatrix`
returns lies in the square from `pad` to `pad + BlockSize * width`; the space left after that
square is `pad` plus the two rounding remainders `IconSize mod (BlockSize + 1)` and
`width mod 2`, so it is never less than `pad`, and equal to it iff `BlockSize + 1` divides
`IconSize` and `width` is even. -/
theorem grid_offsets (g : Generator) (hb : 1 ≤ g.Options.BlockSize)
    (hs : 1 ≤ g.Options.IconSize) :
    (∀ digest rects, g.makeMatrix digest = .ok rects → ∀ r ∈ rects,
      (gridPadding g.Options.BlockSize g.Options.IconSize ≤ r.Min.X ∧
        r.Max.X ≤ gridPadding g.Options.BlockSize g.Options.IconSize +
          g.Options.BlockSize * gridWidth g.Options.BlockSize g.Options.IconSize) ∧
      (gridPadding g.Options.BlockSize g.Options.IconSize ≤ r.Min.Y ∧
        r.Max.Y ≤ gridPadding g.Options.BlockSize g.Options.IconSize +
          g.Options.BlockSize * gridWidth g.Options.BlockSize g.Options.IconSize)) ∧
    g.Options.IconSize - (gridPadding g.Options.BlockSize g.Options.IconSize +
        g.Options.BlockSize * gridWidth g.Options.BlockSize g.Options.IconSize) =
      gridPadding g.Options.BlockSize g.Options.IconSize +
        (g.Options.IconSize % (g.Options.BlockSize + 1) +
          gridWidth g.Options.BlockSize g.Options.IconSize % 2) ∧
    gridPadding g.Options.BlockSize g.Options.IconSize ≤
      g.Options.IconSize - (gridPadding g.Options.BlockSize g.Options.IconSize +
        g.Options.BlockSize * gridWidth g.Options.BlockSize g.Options.IconSize) ∧
    (gridPadding g.Options.BlockSize g.Options.IconSize =
        g.Options.IconSize - (gridPadding g.Options.BlockSize g.Options.IconSize +
          g.Options.BlockSize * gridWidth g.Options.BlockSize g.Options.IconSize) ↔
      g.Options.IconSize % (g.Options.BlockSize + 1) = 0 ∧
        gridWidth g.Options.BlockSize g.Options.IconSize % 2 = 0) := by
  have hs0 : 0 ≤ g.Options.IconSize := by omega
  refine ⟨?_, ?_⟩
  · intro digest rects h r hr
    rw [makeMatrix_eq_matrixRects hb h] at hr
    exact matrixRects_span digest hb hs0 r hr
  · generalize g.Options.BlockSize = bs at hb
    generalize g.Options.IconSize = size at hs hs0
    have hw : Int.tdiv size (bs + 1) = size / (bs + 1) := Int.tdiv_eq_ediv hs0 (by omega)
    have hw0 : 0 ≤ size / (bs + 1) := Int.ediv_nonneg hs0 (by omega)
    have hp : Int.tdiv (size / (bs + 1)) 2 = size / (bs + 1) / 2 :=
      Int.tdiv_eq_ediv hw0 (by decide)
    have hdm : (bs + 1) * (size / (bs + 1)) + size % (bs + 1) = size :=
      Int.ediv_add_emod size (bs + 1)
    have e : (bs + 1) * (size / (bs + 1)) = bs * (size / (bs + 1)) + size / (bs + 1) := by
      ring
    have hr0 : 0 ≤ size % (bs + 1) := Int.emod_nonneg _ (by omega)
    simp only [gridPadding, gridWidth, hw, hp]
    refine ⟨by omega, by omega, ?_⟩
    constructor <;> intro h <;> omega

/-- C19 as amended, at the default sizes (3 pixels of remainder) and at `BlockSize = 4`,
`IconSize = 100` (centred: 10 pixels before and after). -/
theorem grid_offsets_witness :
    200 - (gridPadding 5 200 + 5 * gridWidth 5 200) =
      gridPadding 5 200 + ((200 : Int) % (5 + 1) + gridWidth 5 200 % 2) ∧
    gridPadding 5 200 ≤ 200 - (gridPadding 5 200 + 5 * gridWidth 5 200) ∧
    gridPadding 4 100 = 100 - (gridPadding 4 100 + 4 * gridWidth 4 100) :=
  have h5 := grid_offsets NewDefaultGenerator (by decide) (by decide)
  have h4 := grid_offsets fourGenerator (by decide) (by decide)
  ⟨h5.2.1, h5.2.2.1, h4.2.2.2.2 (by decide)⟩

/-! ## Rows and columns of the emitted rectangles -/

theorem cellRects_rows {bs i : Int} (w pad : Int) (hb : 1 ≤ bs) (hi0 : 0 ≤ i)
    (hi : i < bs * (Int.tdiv bs 2 + Int.tmod bs 2)) :
    ∀ r ∈ cellRects bs w (Int.tdiv bs 2 + Int.tmod bs 2) pad i,
      (0 ≤ Int.tdiv i bs ∧ Int.tdiv i bs < gridCols bs) ∧
      (r.Min.Y = pad + Int.tdiv i bs * w ∧ r.Max.Y = pad + (Int.tdiv i bs + 1) * w) ∧
      (r.Min.X = pad + Int.tdiv i bs * w ∨ r.Min.X = pad + (bs - 1 - Int.tdiv i bs) * w) ∧
      (r.Max.X = r.Min.X + w ∨ r.Max.X = r.Min.X + w + w) := by
  obtain ⟨c, hc, hc0, hclt, -, hm2⟩ := column_facts hb hi0 hi
  intro r hr
  simp only [cellRects, hc, hm2] at hr
  rw [hc]
  simp only [gridCols]
  split_ifs at hr with h1 h2 h3
  all_goals simp only [List.mem_cons, List.mem_singleton, List.not_mem_nil, or_false] at hr
  · omega
  · rcases hr with rfl | rfl
    · exact ⟨⟨hc0, hclt⟩, ⟨rfl, by ring⟩, Or.inl rfl, Or.inl rfl⟩
    · exact ⟨⟨hc0, hclt⟩, ⟨rfl, by ring⟩, Or.inr (by ring), Or.inl rfl⟩
  · subst hr
    exact ⟨⟨hc0, hclt⟩, ⟨rfl, by ring⟩, Or.inl rfl, Or.inr rfl⟩
  · subst hr
    exact ⟨⟨hc0, hclt⟩, ⟨rfl, by ring⟩, Or.inl rfl, Or.inl rfl⟩

theorem matrixRects_rows {bs size : Int} (digest : List Byte) (hb : 1 ≤ bs) :
    ∀ r ∈ matrixRects bs size digest, ∃ i,
      (0 ≤ i ∧ i < bs * gridCols bs ∧ i < int64 (bs * gridCols bs)) ∧
      fillBit i digest = true ∧
      (0 ≤ Int.tdiv i bs ∧ Int.tdiv i bs < gridCols bs) ∧
      (r.Min.Y = gridPadding bs size + Int.tdiv i bs * gridWidth bs size ∧
        r.Max.Y = gridPadding bs size + (Int.tdiv i bs + 1) * gridWidth bs size) ∧
      (r.Min.X = gridPadding bs size + Int.tdiv i bs * gridWidth bs size ∨
        r.Min.X = gridPadding bs size + (bs - 1 - Int.tdiv i bs) * gridWidth bs size) ∧
      (r.Max.X = r.Min.X + gridWidth bs size ∨
        r.Max.X = r.Min.X + gridWidth bs size + gridWidth bs size) := by
  intro r hr
  simp only [matrixRects, List.mem_flatMap, mem_loopRange] at hr
  obtain ⟨i, ⟨hi0, hi⟩, hr⟩ := hr
  have hi' := lt_of_lt_of_le hi (int64_cells_le hb)
  split_ifs at hr with hf
  · exact ⟨i, ⟨hi0, hi', hi⟩, hf, cellRects_rows _ _ hb hi0 hi' r hr⟩
  · simp at hr

theorem loopRange_empty {lo hi : Int} (h : hi ≤ lo) : loopRange lo hi = [] := by
  have : (hi - lo).toNat = 0 := by omega
  simp [loopRange, this]

theorem paintRects_empty (rects : List Rectangle) (img : Paletted)
    (h : ∀ r ∈ rects, r.Max.X ≤ r.Min.X) : rects.foldlM paintRect img = .ok img := by
  induction rects with
  | nil => rfl
  | cons r rects ih =>
    have hr : paintRect img r = .ok img := by
      simp only [paintRect, loopRange_empty (h r (List.mem_cons_self _ _))]
      rfl
    rw [List.foldlM_cons, hr]
    exact ih (fun r' hr' => h r' (List.mem_cons_of_mem _ hr'))

/-- At the largest `int` the sum `blockSize + 1` overflows in Go, but the loop bound is
negative there: `makeMatrix` visits no cell, so `width` is not used. -/
theorem makeMatrix_maxInt (g : Generator) (digest : List Byte)
    (hb : g.Options.BlockSize = 2 ^ 63 - 1) : g.makeMatrix digest = .ok [] := by
  have hc : int64 ((2 ^ 63 - 1) * (Int.tdiv (2 ^ 63 - 1) 2 + Int.tmod (2 ^ 63 - 1) 2)) =
      -4611686018427387904 := by decide
  simp only [Generator.makeMatrix, goDiv, hb]
  rw [if_neg (by decide)]
  simp only [bind, Except.bind]
  rw [hc, loopRange_empty (by decide)]
  rfl

theorem render_ok_inv {g : Generator} {digest : List Byte} {img : Paletted}
    (h : g.render digest = .ok img) :
    ∃ c rects, g.pickColors digest = .ok c ∧ g.makeMatrix digest = .ok rects ∧
      rects.foldlM paintRect (g.makePalette c.1 c.2) = .ok img := by
  rw [render_eq] at h
  cases hp : g.pickColors digest with
  | error e => rw [hp] at h; cases h
  | ok c =>
    rw [hp] at h
    simp only [Except.bind] at h
    cases hm : g.makeMatrix digest with
    | error e => rw [hm] at h; cases h
    | ok rects =>
      rw [hm] at h
      exact ⟨c, rects, rfl, rfl, h⟩

theorem makePalette_neg (g : Generator) (fg bg : NRGBA) (hs : g.Options.IconSize < 0) :
    g.makePalette fg bg =
      ⟨List.replicate (g.Options.IconSize * g.Options.IconSize).toNat 0, -g.Options.IconSize,
        ⟨⟨g.Options.IconSize, g.Options.IconSize⟩, ⟨0, 0⟩⟩, [bg, fg]⟩ := by
  have h : 0 > g.Options.IconSize := hs
  simp only [Generator.makePalette, NewPaletted, Rect, Rectangle.Dx, Rectangle.Dy, if_pos h]
  have e1 : 1 * (0 - g.Options.IconSize) * (0 - g.Options.IconSize) =
      g.Options.IconSize * g.Options.IconSize := by ring
  have e2 : 1 * (0 - g.Options.IconSize) = -g.Options.IconSize := by ring
  rw [e1, e2]

/-- The pixels of a returned image below the last row decided by the digest are background. -/
theorem render_lower_part {g : Generator} {digest : List Byte} {img : Paletted}
    (hb : 1 ≤ g.Options.BlockSize) (h : g.render digest = .ok img) :
    ∀ x y, (Point.mk x y).In img.Rect →
      gridPadding g.Options.BlockSize g.Options.IconSize +
        gridCols g.Options.BlockSize * gridWidth g.Options.BlockSize g.Options.IconSize ≤ y →
      img.ColorIndexAt x y = .ok 0 := by
  obtain ⟨c, rects, -, hm, hfold⟩ := render_ok_inv h
  have hrects := makeMatrix_eq_matrixRects hb hm
  subst hrects
  rcases le_or_lt 0 g.Options.IconSize with hs | hs
  · obtain ⟨out, hout, hp⟩ := paintRects_paints
      (matrixRects g.Options.BlockSize g.Options.IconSize digest)
      ⟨List.replicate (g.Options.IconSize * g.Options.IconSize).toNat 0, g.Options.IconSize,
        ⟨⟨0, 0⟩, ⟨g.Options.IconSize, g.Options.IconSize⟩⟩, [c.2, c.1]⟩
      rfl (by
        have := mul_nonneg hs hs
        simp only [List.length_replicate]
        omega)
      (matrixRects_fits digest hb hs)
    rw [makePalette_eq g _ _ hs, hout] at hfold
    have himg : out = img := Except.ok.inj hfold
    subst himg
    intro x y hin hy
    rw [hp.rect] at hin
    simp only [Point.In] at hin
    have hw0 : 0 ≤ gridWidth g.Options.BlockSize g.Options.IconSize :=
      Int.tdiv_nonneg hs (by omega)
    apply ColorIndexAt_eq out g.Options.IconSize 0 hp.rect hp.stride hin.1 hin.2.1 hin.2.2.1
      hin.2.2.2
    rw [hp.kept x y hin.1 hin.2.1 hin.2.2.1 hin.2.2.2]
    · have := offset_lt hin.1 hin.2.1 hin.2.2.1 hin.2.2.2
      simp only [List.get?_eq_getElem?]
      rw [List.getElem?_replicate, if_pos (by omega)]
    · rintro ⟨r, hr, hinr⟩
      obtain ⟨i, -, -, ⟨-, hclt⟩, ⟨-, hmax⟩, -, -⟩ := matrixRects_rows digest hb r hr
      simp only [Point.In] at hinr
      have hmul : (Int.tdiv i g.Options.BlockSize + 1) *
          gridWidth g.Options.BlockSize g.Options.IconSize ≤
          gridCols g.Options.BlockSize * gridWidth g.Options.BlockSize g.Options.IconSize :=
        mul_le_mul_of_nonneg_right (by omega) hw0
      omega
  · have hw : gridWidth g.Options.BlockSize g.Options.IconSize ≤ 0 := by
      have e : g.Options.IconSize = -(-g.Options.IconSize) := by ring
      have := Int.tdiv_nonneg (a := -g.Options.IconSize) (b := g.Options.BlockSize + 1)
        (by omega) (by omega)
      simp only [gridWidth]
      rw [e, Int.neg_tdiv]
      omega
    rw [paintRects_empty _ _ (by
      intro r hr
      obtain ⟨i, -, -, -, -, -, hX⟩ := matrixRects_rows digest hb r hr
      omega)] at hfold
    have himg : g.makePalette c.1 c.2 = img := Except.ok.inj hfold
    subst himg
    intro x y hin _
    rw [makePalette_neg g _ _ hs] at hin ⊢
    simp only [Paletted.ColorIndexAt, Paletted.PixOffset, Point.In, index] at hin ⊢
    rw [if_neg (by simp only [not_not]; omega)]
    have hoff := offset_lt (W := -g.Options.IconSize) (H := -g.Options.IconSize)
      (x := x - g.Options.IconSize) (y := y - g.Options.IconSize) (by omega) (by omega)
      (by omega) (by omega)
    have e1 : (y - g.Options.IconSize) * -g.Options.IconSize + (x - g.Options.IconSize) * 1 =
        (y - g.Options.IconSize) * -g.Options.IconSize + (x - g.Options.IconSize) := by ring
    have e2 : g.Options.IconSize * g.Options.IconSize =
        -g.Options.IconSize * -g.Options.IconSize := by ring
    rw [e1, e2, if_neg (by omega)]
    simp only [List.get?_eq_getElem?]
    rw [List.getElem?_replicate, if_pos (by omega)]

/-- C17: for `BlockSize ≥ 1`, every rectangle `makeMatrix` returns comes from a filled cell
`i` and lies in row `c = i / BlockSize`, with `0 ≤ c < cols`, and in column `c` or column
`BlockSize - 1 - c`: only cells on the two diagonals of the top `cols` rows are painted, and in
every image `Generate` returns every pixel with `y ≥ pad + cols * width` is background. -/
theorem diagonal_collapse (g : Generator) (hb : 1 ≤ g.Options.BlockSize) :
    (∀ digest rects, g.makeMatrix digest = .ok rects → ∀ r ∈ rects,
      ∃ i c, (0 ≤ i ∧ i < g.Options.BlockSize * gridCols g.Options.BlockSize) ∧
        g.fill i digest = .ok true ∧ c = Int.tdiv i g.Options.BlockSize ∧
        (0 ≤ c ∧ c < gridCols g.Options.BlockSize) ∧
        (r.Min.Y = gridPadding g.Options.BlockSize g.Options.IconSize +
            c * gridWidth g.Options.BlockSize g.Options.IconSize ∧
          r.Max.Y = gridPadding g.Options.BlockSize g.Options.IconSize +
            (c + 1) * gridWidth g.Options.BlockSize g.Options.IconSize) ∧
        (r.Min.X = gridPadding g.Options.BlockSize g.Options.IconSize +
            c * gridWidth g.Options.BlockSize g.Options.IconSize ∨
          r.Min.X = gridPadding g.Options.BlockSize g.Options.IconSize +
            (g.Options.BlockSize - 1 - c) * gridWidth g.Options.BlockSize g.Options.IconSize)) ∧
    (∀ identity img g', g.Generate identity = .ok (img, g') →
      ∀ x y, (Point.mk x y).In img.Rect →
        gridPadding g.Options.BlockSize g.Options.IconSize +
          gridCols g.Options.BlockSize * gridWidth g.Options.BlockSize g.Options.IconSize ≤ y →
        img.ColorIndexAt x y = .ok 0) := by
  constructor
  · intro digest rects h r hr
    have hlen := makeMatrix_ok_length hb h
    rw [makeMatrix_eq_matrixRects hb h] at hr
    obtain ⟨i, hi, hf, hc, hY, hX, -⟩ := matrixRects_rows digest hb r hr
    refine ⟨i, Int.tdiv i g.Options.BlockSize, ⟨hi.1, hi.2.1⟩, ?_, rfl, hc, hY, hX⟩
    rw [fill_ok g hi.1 (by
      have := hi.2.2
      simp only [gridCols] at this
      omega), hf]
  · intro identity img g' h
    obtain ⟨hash, -, -, hr⟩ := Generate_inv h
    exact render_lower_part (g := g.afterHash hash identity) hb hr

/-- C17 at the sample generator and the identity `"a"`: the returned image is background from
row `pad + cols * width = 1 + 3 * 2 = 7` on. -/
theorem diagonal_collapse_witness :
    sampleGenerator.Generate [97] =
        .ok (sampleImage, sampleGenerator.afterHash sha1.New [97]) ∧
      ∀ x y, (Point.mk x y).In sampleImage.Rect →
        gridPadding sampleGenerator.Options.BlockSize sampleGenerator.Options.IconSize +
          gridCols sampleGenerator.Options.BlockSize *
            gridWidth sampleGenerator.Options.BlockSize sampleGenerator.Options.IconSize ≤ y →
        sampleImage.ColorIndexAt x y = .ok 0 :=
  ⟨rfl, (diagonal_collapse sampleGenerator (by decide)).2 [97] sampleImage _ rfl⟩

end Identicon
